import Mathlib

/-!
Verification of the cjit repository (src/compiler.rs, src/main.rs): a
stack-bytecode to x86-64 just-in-time compiler.  The Rust source is embedded
shallowly: `Instruction`, `Program` and `Compiler` mirror the corresponding
Rust types, pure functions become Lean functions, Rust `panic!` becomes
`Except.error` carrying the panic message, and machine integers are modelled
as `Nat`/`Int` with explicit reductions modulo `2^64` / `2^32`.  The x86-64
processor that executes the generated bytes is not part of the repository;
it is modelled by a decoder and small-step interpreter over exactly the
encodings the compiler emits.
-/

namespace CJit

/-! ## Byte-level helpers (little-endian encodings, two's complement) -/

/-- The 8 little-endian bytes of a natural number below `2^64`
(`i64::to_le_bytes` after reinterpreting as `u64`). -/
def natLe8 (n : Nat) : List Nat :=
  [n % 256, n / 256 % 256, n / 65536 % 256, n / 16777216 % 256,
   n / 4294967296 % 256, n / 1099511627776 % 256,
   n / 281474976710656 % 256, n / 72057594037927936 % 256]

/-- The 4 little-endian bytes of a natural number below `2^32`
(`i32::to_le_bytes` after reinterpreting as `u32`). -/
def natLe4 (n : Nat) : List Nat :=
  [n % 256, n / 256 % 256, n / 65536 % 256, n / 16777216 % 256]

/-- Recombine 8 little-endian bytes into a natural number. -/
def leVal8 (b0 b1 b2 b3 b4 b5 b6 b7 : Nat) : Nat :=
  b0 + 256 * b1 + 65536 * b2 + 16777216 * b3 + 4294967296 * b4
    + 1099511627776 * b5 + 281474976710656 * b6 + 72057594037927936 * b7

/-- Recombine 4 little-endian bytes into a natural number. -/
def leVal4 (b0 b1 b2 b3 : Nat) : Nat :=
  b0 + 256 * b1 + 65536 * b2 + 16777216 * b3

/-- The unsigned 64-bit representative of an integer (two's complement). -/
def toU64 (v : Int) : Nat := (v % (18446744073709551616 : Int)).toNat

/-- The unsigned 32-bit representative of an integer (two's complement). -/
def toU32 (v : Int) : Nat := (v % (4294967296 : Int)).toNat

/-- Interpret an unsigned 64-bit value as a signed two's-complement integer. -/
def toSigned64 (n : Nat) : Int :=
  if n % 18446744073709551616 < 9223372036854775808 then
    ((n % 18446744073709551616 : Nat) : Int)
  else ((n % 18446744073709551616 : Nat) : Int) - 18446744073709551616

/-- Interpret an unsigned 32-bit value as a signed two's-complement integer. -/
def toSigned32 (n : Nat) : Int :=
  if n % 4294967296 < 2147483648 then ((n % 4294967296 : Nat) : Int)
  else ((n % 4294967296 : Nat) : Int) - 4294967296

/-- Reduce an integer into the signed 64-bit range (two's-complement wrap). -/
def wrap64 (v : Int) : Int := toSigned64 (toU64 v)

/-- `i64::to_le_bytes` of the Rust source, on the `Int` model of `i64`. -/
def i64Le (v : Int) : List Nat := natLe8 (toU64 v)

/-- `i32::to_le_bytes` of the Rust source, on the `Int` model of `i32`. -/
def i32Le (v : Int) : List Nat := natLe4 (toU32 v)

/-! ## The instruction set (`enum Instruction` of `compiler.rs`) -/

/-- The bytecode instruction set, mirroring `enum Instruction`. -/
inductive Instruction where
  | load (v : Int)
  | dup
  | pop
  | swap
  | add
  | sub
  | mul
  | div
  | mod
  | neg
  | eq
  | ne
  | lt
  | gt
  | lte
  | gte
  | and
  | or
  | not
  | band
  | bor
  | bxor
  | bnot
  | shl
  | shr
  | store (id : Nat)
  | loadVar (id : Nat)
  | jmp (label : Nat)
  | jmpIf (label : Nat)
  | jmpIfNot (label : Nat)
  | label (id : Nat)
  | call (label : Nat)
  | write
  | writeChar
  | read
  | ret
  | halt
deriving DecidableEq

/-- `struct Program`: an ordered sequence of instructions. -/
structure Program where
  insts : List Instruction

/-- `Program::new`. -/
def Program.new (insts : List Instruction) : Program := ⟨insts⟩

/-! ## The compiler (`struct Compiler` of `compiler.rs`)

Rust `panic!` is modelled as `Except.error` carrying the panic message.
`HashMap<u32, usize>` is modelled as a function `Nat → Option Nat` with
insertion overriding (last write wins, as in the source). -/

/-- `struct Compiler`. -/
structure Compiler where
  bytecode : List Nat
  stk_offset : Int
  labels : Nat → Option Nat
  label_patches : List (Nat × Nat)

/-- `Compiler::new`. -/
def Compiler.new : Compiler :=
  { bytecode := [], stk_offset := 0, labels := fun _ => none, label_patches := [] }

/-- `Compiler::emit`. -/
def Compiler.emit (c : Compiler) (bytes : List Nat) : Compiler :=
  { c with bytecode := c.bytecode ++ bytes }

/-- `Compiler::emit_fn_prologue`: push rbp; mov rbp, rsp; sub rsp, 1024. -/
def Compiler.emit_fn_prologue (c : Compiler) : Compiler :=
  ((c.emit [0x55]).emit [0x48, 0x89, 0xE5]).emit [0x48, 0x81, 0xEC, 0x00, 0x04, 0x00, 0x00]

/-- `Compiler::emit_fn_epilogue`: mov rsp, rbp; pop rbp; ret. -/
def Compiler.emit_fn_epilogue (c : Compiler) : Compiler :=
  ((c.emit [0x48, 0x89, 0xEC]).emit [0x5D]).emit [0xC3]

/-- `Compiler::emit_load_imm`: mov rax, imm64; push rax. -/
def Compiler.emit_load_imm (c : Compiler) (val : Int) : Compiler :=
  let c := (c.emit [0x48, 0xB8]).emit (i64Le val)
  let c := c.emit [0x50]
  { c with stk_offset := c.stk_offset + 8 }

/-- `Compiler::emit_dup`: mov rax, [rsp]; push rax. -/
def Compiler.emit_dup (c : Compiler) : Compiler :=
  let c := (c.emit [0x48, 0x8B, 0x04, 0x24]).emit [0x50]
  { c with stk_offset := c.stk_offset + 8 }

/-- `Compiler::emit_pop`: pop rax. -/
def Compiler.emit_pop (c : Compiler) : Compiler :=
  let c := c.emit [0x58]
  { c with stk_offset := c.stk_offset - 8 }

/-- `Compiler::emit_swap`: pop rbx; pop rax; push rbx; push rax. -/
def Compiler.emit_swap (c : Compiler) : Compiler :=
  (((c.emit [0x5B]).emit [0x58]).emit [0x53]).emit [0x50]

/-- `Compiler::emit_binop`: pop rbx; pop rax; operate; push rax.
An unrecognized operator name is the source's `panic!`. -/
def Compiler.emit_binop (c : Compiler) (op : String) : Except String Compiler :=
  let c := (c.emit [0x5B]).emit [0x58]
  let mid : Except String Compiler :=
    match op with
    | "add" => Except.ok (c.emit [0x48, 0x01, 0xD8])
    | "sub" => Except.ok (c.emit [0x48, 0x29, 0xD8])
    | "mul" => Except.ok (c.emit [0x48, 0x0F, 0xAF, 0xC3])
    | "and" => Except.ok (c.emit [0x48, 0x21, 0xD8])
    | "or" => Except.ok (c.emit [0x48, 0x09, 0xD8])
    | "xor" => Except.ok (c.emit [0x48, 0x31, 0xD8])
    | "div" => Except.ok ((c.emit [0x48, 0x99]).emit [0x48, 0xF7, 0xFB])
    | "mod" => Except.ok (((c.emit [0x48, 0x99]).emit [0x48, 0xF7, 0xFB]).emit [0x48, 0x89, 0xD0])
    | "shl" => Except.ok ((c.emit [0x48, 0x89, 0xD9]).emit [0x48, 0xD3, 0xE0])
    | "shr" => Except.ok ((c.emit [0x48, 0x89, 0xD9]).emit [0x48, 0xD3, 0xF8])
    | _ => Except.error ("unknown binop op: " ++ op)
  match mid with
  | Except.ok c =>
      let c := c.emit [0x50]
      Except.ok { c with stk_offset := c.stk_offset - 8 }
  | Except.error e => Except.error e

/-- `Compiler::emit_cmp`: pop rbx; pop rax; cmp rax, rbx; xor rax, rax; setcc al;
push rax.  An unrecognized operator name is the source's `panic!`. -/
def Compiler.emit_cmp (c : Compiler) (op : String) : Except String Compiler :=
  let c := (((c.emit [0x5B]).emit [0x58]).emit [0x48, 0x39, 0xD8]).emit [0x48, 0x31, 0xC0]
  let mid : Except String Compiler :=
    match op with
    | "eq" => Except.ok (c.emit [0x0F, 0x94, 0xC0])
    | "ne" => Except.ok (c.emit [0x0F, 0x95, 0xC0])
    | "lt" => Except.ok (c.emit [0x0F, 0x9C, 0xC0])
    | "lte" => Except.ok (c.emit [0x0F, 0x9E, 0xC0])
    | "gt" => Except.ok (c.emit [0x0F, 0x9F, 0xC0])
    | "gte" => Except.ok (c.emit [0x0F, 0x9D, 0xC0])
    | _ => Except.error ("unknown cmp op: " ++ op)
  match mid with
  | Except.ok c =>
      let c := c.emit [0x50]
      Except.ok { c with stk_offset := c.stk_offset - 8 }
  | Except.error e => Except.error e

/-- `Compiler::emit_unary`: pop rax; operate; push rax.
The source recognizes only "bnot", "neg" and "ne" here; anything else is the
source's `panic!` (whose message also says "cmp op"). -/
def Compiler.emit_unary (c : Compiler) (op : String) : Except String Compiler :=
  let c := c.emit [0x58]
  let mid : Except String Compiler :=
    match op with
    | "bnot" => Except.ok (c.emit [0x48, 0xF7, 0xD0])
    | "neg" => Except.ok (c.emit [0x48, 0xF7, 0xD8])
    | "ne" => Except.ok (((c.emit [0x48, 0x85, 0xC0]).emit [0x48, 0x31, 0xC0]).emit [0x0F, 0x94, 0xC0])
    | _ => Except.error ("unknown cmp op: " ++ op)
  match mid with
  | Except.ok c =>
      let c := c.emit [0x50]
      Except.ok { c with stk_offset := c.stk_offset - 8 }
  | Except.error e => Except.error e

/-- `Compiler::emit_store`: pop rax; mov [rbp-(id+1)*8], rax. -/
def Compiler.emit_store (c : Compiler) (id : Nat) : Compiler :=
  let offset : Int := ((id : Int) + 1) * 8
  let c := ((c.emit [0x58]).emit [0x48, 0x89, 0x85]).emit (i32Le (-offset))
  { c with stk_offset := c.stk_offset - 8 }

/-- `Compiler::emit_load_var`: mov rax, [rbp-(id+1)*8]; push rax. -/
def Compiler.emit_load_var (c : Compiler) (id : Nat) : Compiler :=
  let offset : Int := ((id : Int) + 1) * 8
  let c := ((c.emit [0x48, 0x8B, 0x85]).emit (i32Le (-offset))).emit [0x50]
  { c with stk_offset := c.stk_offset + 8 }

/-- `Compiler::emit_jmp` with `is_conditional_jmp = None`, `Some(true)`,
`Some(false)`: the displacement field is emitted as four zero bytes and its
position is pushed on `label_patches`. -/
def Compiler.emit_jmp (c : Compiler) (label : Nat) (is_conditional_jmp : Option Bool) : Compiler :=
  match is_conditional_jmp with
  | none =>
      let c := c.emit [0xE9]
      let pos := c.bytecode.length
      let c := { c with label_patches := c.label_patches ++ [(pos, label)] }
      c.emit [0x00, 0x00, 0x00, 0x00]
  | some true =>
      let c := ((c.emit [0x58]).emit [0x48, 0x85, 0xC0]).emit [0x0F, 0x85]
      let pos := c.bytecode.length
      let c := { c with label_patches := c.label_patches ++ [(pos, label)] }
      let c := c.emit [0x00, 0x00, 0x00, 0x00]
      { c with stk_offset := c.stk_offset - 8 }
  | some false =>
      let c := ((c.emit [0x58]).emit [0x48, 0x85, 0xC0]).emit [0x0F, 0x84]
      let pos := c.bytecode.length
      let c := { c with label_patches := c.label_patches ++ [(pos, label)] }
      let c := c.emit [0x00, 0x00, 0x00, 0x00]
      { c with stk_offset := c.stk_offset - 8 }

/-- `Compiler::emit_write`: pop rax; push rax. -/
def Compiler.emit_write (c : Compiler) : Compiler :=
  (c.emit [0x58]).emit [0x50]

/-- Overwrite four bytes of a buffer starting at `pos`; `none` models the
Rust index-out-of-bounds panic. -/
def writeBytes4 (bc : List Nat) (pos : Nat) (bytes : List Nat) : Option (List Nat) :=
  if pos + 4 ≤ bc.length then some (bc.take pos ++ bytes ++ bc.drop (pos + 4))
  else none

/-- The loop body of `Compiler::patch_jumps`, folded over the patch list in
insertion order.  A patch whose label is absent from the table is silently
skipped, exactly as in the source. -/
def patchList (labels : Nat → Option Nat) : List Nat → List (Nat × Nat) → Except String (List Nat)
  | bc, [] => Except.ok bc
  | bc, (pos, label) :: rest =>
      match labels label with
      | some p =>
          let offset : Int := (p : Int) - ((pos : Int) + 4)
          match writeBytes4 bc pos (i32Le offset) with
          | some bc2 => patchList labels bc2 rest
          | none => Except.error ("index out of bounds")
      | none => patchList labels bc rest

/-- `Compiler::patch_jumps`. -/
def Compiler.patch_jumps (c : Compiler) : Except String Compiler :=
  match patchList c.labels c.bytecode c.label_patches with
  | Except.ok bc => Except.ok { c with bytecode := bc }
  | Except.error e => Except.error e

/-- The label-collection pre-scan at the top of `Compiler::compile`: it runs
before any instruction is emitted, reading `self.bytecode.len()` for every
`Label` it meets (the buffer holds only the prologue throughout the scan). -/
def Compiler.collect_labels : Compiler → List Instruction → Compiler
  | c, [] => c
  | c, Instruction.label id :: rest =>
      Compiler.collect_labels
        { c with labels := fun k => if k = id then some c.bytecode.length else c.labels k } rest
  | c, _ :: rest => Compiler.collect_labels c rest

/-- The instruction-emission loop of `Compiler::compile`.  `Ret` emits
`pop rax` and breaks; `Halt` breaks; `Label`, `Read` and `Call` emit
nothing. -/
def Compiler.compile_loop : Compiler → List Instruction → Except String Compiler
  | c, [] => Except.ok c
  | c, i :: rest =>
      match i with
      | Instruction.load v => Compiler.compile_loop (c.emit_load_imm v) rest
      | Instruction.dup => Compiler.compile_loop c.emit_dup rest
      | Instruction.pop => Compiler.compile_loop c.emit_pop rest
      | Instruction.swap => Compiler.compile_loop c.emit_swap rest
      | Instruction.add => (c.emit_binop ("add")).bind (fun c2 => Compiler.compile_loop c2 rest)
      | Instruction.sub => (c.emit_binop ("sub")).bind (fun c2 => Compiler.compile_loop c2 rest)
      | Instruction.mul => (c.emit_binop ("mul")).bind (fun c2 => Compiler.compile_loop c2 rest)
      | Instruction.div => (c.emit_binop ("div")).bind (fun c2 => Compiler.compile_loop c2 rest)
      | Instruction.mod => (c.emit_binop ("mod")).bind (fun c2 => Compiler.compile_loop c2 rest)
      | Instruction.neg => (c.emit_unary ("neg")).bind (fun c2 => Compiler.compile_loop c2 rest)
      | Instruction.eq => (c.emit_cmp ("eq")).bind (fun c2 => Compiler.compile_loop c2 rest)
      | Instruction.ne => (c.emit_cmp ("ne")).bind (fun c2 => Compiler.compile_loop c2 rest)
      | Instruction.lt => (c.emit_cmp ("lt")).bind (fun c2 => Compiler.compile_loop c2 rest)
      | Instruction.lte => (c.emit_cmp ("le")).bind (fun c2 => Compiler.compile_loop c2 rest)
      | Instruction.gt => (c.emit_cmp ("gt")).bind (fun c2 => Compiler.compile_loop c2 rest)
      | Instruction.gte => (c.emit_cmp ("ge")).bind (fun c2 => Compiler.compile_loop c2 rest)
      | Instruction.and => (c.emit_binop ("and")).bind (fun c2 => Compiler.compile_loop c2 rest)
      | Instruction.or => (c.emit_binop ("or")).bind (fun c2 => Compiler.compile_loop c2 rest)
      | Instruction.not => (c.emit_unary ("not")).bind (fun c2 => Compiler.compile_loop c2 rest)
      | Instruction.band => (c.emit_binop ("and")).bind (fun c2 => Compiler.compile_loop c2 rest)
      | Instruction.bor => (c.emit_binop ("or")).bind (fun c2 => Compiler.compile_loop c2 rest)
      | Instruction.bxor => (c.emit_binop ("xor")).bind (fun c2 => Compiler.compile_loop c2 rest)
      | Instruction.bnot => (c.emit_unary ("bnot")).bind (fun c2 => Compiler.compile_loop c2 rest)
      | Instruction.shl => (c.emit_binop ("shl")).bind (fun c2 => Compiler.compile_loop c2 rest)
      | Instruction.shr => (c.emit_binop ("shr")).bind (fun c2 => Compiler.compile_loop c2 rest)
      | Instruction.store id => Compiler.compile_loop (c.emit_store id) rest
      | Instruction.loadVar id => Compiler.compile_loop (c.emit_load_var id) rest
      | Instruction.jmp l => Compiler.compile_loop (c.emit_jmp l none) rest
      | Instruction.jmpIf l => Compiler.compile_loop (c.emit_jmp l (some true)) rest
      | Instruction.jmpIfNot l => Compiler.compile_loop (c.emit_jmp l (some false)) rest
      | Instruction.label _ => Compiler.compile_loop c rest
      | Instruction.call _ => Compiler.compile_loop c rest
      | Instruction.write => Compiler.compile_loop c.emit_write rest
      | Instruction.writeChar => Compiler.compile_loop c.emit_write rest
      | Instruction.read => Compiler.compile_loop c rest
      | Instruction.ret => Except.ok (c.emit [0x58])
      | Instruction.halt => Except.ok c

/-- `Compiler::compile`: clear the buffer, emit the prologue, pre-scan the
labels, emit the instructions, patch the jumps, emit the epilogue, return the
buffer.  Only `bytecode` is cleared; `labels` and `label_patches` persist
from earlier calls, exactly as in the source. -/
def Compiler.compile (c : Compiler) (program : Program) : Except String (Compiler × List Nat) :=
  let c := { c with bytecode := [] }
  let c := c.emit_fn_prologue
  let c := c.collect_labels program.insts
  match c.compile_loop program.insts with
  | Except.error e => Except.error e
  | Except.ok c =>
      match c.patch_jumps with
      | Except.error e => Except.error e
      | Except.ok c =>
          let c := c.emit_fn_epilogue
          Except.ok (c, c.bytecode)

/-- The byte sequence produced by compiling with a fresh `Compiler`, or
`none` when compilation panics. -/
def compileOut (insts : List Instruction) : Option (List Nat) :=
  match Compiler.new.compile (Program.new insts) with
  | Except.ok (_, b) => some b
  | Except.error _ => none

/-- The panic message produced by compiling with a fresh `Compiler`, if any. -/
def compileErr (insts : List Instruction) : Option String :=
  match Compiler.new.compile (Program.new insts) with
  | Except.ok _ => none
  | Except.error e => some e

/-- The buffer length after emitting the prologue and then the given
instructions with a fresh compiler: the byte position at which the next
instruction would be emitted (hence, the position a `Label` placed after
`insts` actually occupies in the emitted code). -/
def emittedLen (insts : List Instruction) : Option Nat :=
  match Compiler.new.emit_fn_prologue.compile_loop insts with
  | Except.ok c => some c.bytecode.length
  | Except.error _ => none

/-- Labels recorded by the pre-scan of `Compiler::compile` on a fresh
compiler (after the prologue, before any instruction emission). -/
def prescanLabels (insts : List Instruction) : Nat → Option Nat :=
  (Compiler.new.emit_fn_prologue.collect_labels insts).labels

/-- Decode the 4 little-endian bytes of a buffer starting at `pos`. -/
def readLe4At (bs : List Nat) (pos : Nat) : Option Nat :=
  match bs.get? pos, bs.get? (pos + 1), bs.get? (pos + 2), bs.get? (pos + 3) with
  | some b0, some b1, some b2, some b3 => some (leVal4 b0 b1 b2 b3)
  | _, _, _, _ => none

/-- The byte offset a rel32 jump whose displacement field starts at `pos`
transfers control to: end of the displacement field plus the signed
displacement. -/
def jumpTargetAt (bs : List Nat) (pos : Nat) : Option Int :=
  (readLe4At bs pos).map (fun n => (pos : Int) + 4 + toSigned32 n)

/-! ## The processor model

The x86-64 CPU that runs the generated buffer is not code of this
repository.  It is modelled here from the spec (sections 4.1, 4.2 and the
glossary) and the standard architecture manuals, restricted to exactly the
encodings the compiler emits: a decoder over the byte list and a small-step
interpreter with fuel.  Registers hold signed 64-bit values as `Int`;
memory is a map from (8-aligned) byte addresses to 64-bit values; flags
are modelled as the pair of operands of the last `cmp`/`test` (a `test rax,
rax` behaves as comparing `rax` with `0`, which agrees with ZF/SF/OF for
every consumer the compiler emits). -/

/-- The micro-operations (single machine instructions) the compiler emits. -/
inductive MOp where
  | pushRbp
  | movRbpRsp
  | subRsp1024
  | movRspRbp
  | popRbp
  | retq
  | movRaxImm (n : Nat)
  | pushRax
  | pushRbx
  | popRax
  | popRbx
  | movRaxMemRsp
  | addRaxRbx
  | subRaxRbx
  | imulRaxRbx
  | andRaxRbx
  | orRaxRbx
  | xorRaxRbx
  | xorRaxRax
  | cqo
  | idivRbx
  | movRaxRdx
  | movRcxRbx
  | shlRaxCl
  | sarRaxCl
  | notRax
  | negRax
  | testRaxRax
  | cmpRaxRbx
  | sete
  | setne
  | setl
  | setle
  | setg
  | setge
  | movMemRbpRax (d : Nat)
  | movRaxMemRbp (d : Nat)
  | jmpRel (d : Nat)
  | jzRel (d : Nat)
  | jnzRel (d : Nat)
deriving DecidableEq

/-- Decode the machine instruction at the head of a byte stream, returning
the micro-operation and its encoded length. -/
def decodeList : List Nat → Option (MOp × Nat)
  | 0x55 :: _ => some (MOp.pushRbp, 1)
  | 0x50 :: _ => some (MOp.pushRax, 1)
  | 0x53 :: _ => some (MOp.pushRbx, 1)
  | 0x58 :: _ => some (MOp.popRax, 1)
  | 0x5B :: _ => some (MOp.popRbx, 1)
  | 0x5D :: _ => some (MOp.popRbp, 1)
  | 0xC3 :: _ => some (MOp.retq, 1)
  | 0xE9 :: b0 :: b1 :: b2 :: b3 :: _ => some (MOp.jmpRel (leVal4 b0 b1 b2 b3), 5)
  | 0x48 :: 0xB8 :: b0 :: b1 :: b2 :: b3 :: b4 :: b5 :: b6 :: b7 :: _ =>
      some (MOp.movRaxImm (leVal8 b0 b1 b2 b3 b4 b5 b6 b7), 10)
  | 0x48 :: 0x89 :: 0xE5 :: _ => some (MOp.movRbpRsp, 3)
  | 0x48 :: 0x89 :: 0xEC :: _ => some (MOp.movRspRbp, 3)
  | 0x48 :: 0x89 :: 0xD0 :: _ => some (MOp.movRaxRdx, 3)
  | 0x48 :: 0x89 :: 0xD9 :: _ => some (MOp.movRcxRbx, 3)
  | 0x48 :: 0x89 :: 0x85 :: b0 :: b1 :: b2 :: b3 :: _ =>
      some (MOp.movMemRbpRax (leVal4 b0 b1 b2 b3), 7)
  | 0x48 :: 0x8B :: 0x85 :: b0 :: b1 :: b2 :: b3 :: _ =>
      some (MOp.movRaxMemRbp (leVal4 b0 b1 b2 b3), 7)
  | 0x48 :: 0x8B :: 0x04 :: 0x24 :: _ => some (MOp.movRaxMemRsp, 4)
  | 0x48 :: 0x81 :: 0xEC :: 0x00 :: 0x04 :: 0x00 :: 0x00 :: _ => some (MOp.subRsp1024, 7)
  | 0x48 :: 0x01 :: 0xD8 :: _ => some (MOp.addRaxRbx, 3)
  | 0x48 :: 0x29 :: 0xD8 :: _ => some (MOp.subRaxRbx, 3)
  | 0x48 :: 0x0F :: 0xAF :: 0xC3 :: _ => some (MOp.imulRaxRbx, 4)
  | 0x48 :: 0x21 :: 0xD8 :: _ => some (MOp.andRaxRbx, 3)
  | 0x48 :: 0x09 :: 0xD8 :: _ => some (MOp.orRaxRbx, 3)
  | 0x48 :: 0x31 :: 0xD8 :: _ => some (MOp.xorRaxRbx, 3)
  | 0x48 :: 0x31 :: 0xC0 :: _ => some (MOp.xorRaxRax, 3)
  | 0x48 :: 0x99 :: _ => some (MOp.cqo, 2)
  | 0x48 :: 0xF7 :: 0xFB :: _ => some (MOp.idivRbx, 3)
  | 0x48 :: 0xF7 :: 0xD0 :: _ => some (MOp.notRax, 3)
  | 0x48 :: 0xF7 :: 0xD8 :: _ => some (MOp.negRax, 3)
  | 0x48 :: 0xD3 :: 0xE0 :: _ => some (MOp.shlRaxCl, 3)
  | 0x48 :: 0xD3 :: 0xF8 :: _ => some (MOp.sarRaxCl, 3)
  | 0x48 :: 0x85 :: 0xC0 :: _ => some (MOp.testRaxRax, 3)
  | 0x48 :: 0x39 :: 0xD8 :: _ => some (MOp.cmpRaxRbx, 3)
  | 0x0F :: 0x84 :: b0 :: b1 :: b2 :: b3 :: _ => some (MOp.jzRel (leVal4 b0 b1 b2 b3), 6)
  | 0x0F :: 0x85 :: b0 :: b1 :: b2 :: b3 :: _ => some (MOp.jnzRel (leVal4 b0 b1 b2 b3), 6)
  | 0x0F :: 0x94 :: 0xC0 :: _ => some (MOp.sete, 3)
  | 0x0F :: 0x95 :: 0xC0 :: _ => some (MOp.setne, 3)
  | 0x0F :: 0x9C :: 0xC0 :: _ => some (MOp.setl, 3)
  | 0x0F :: 0x9E :: 0xC0 :: _ => some (MOp.setle, 3)
  | 0x0F :: 0x9F :: 0xC0 :: _ => some (MOp.setg, 3)
  | 0x0F :: 0x9D :: 0xC0 :: _ => some (MOp.setge, 3)
  | _ => none

/-- Decode the machine instruction of a code buffer at `pc`, returning the
micro-operation and the address of the next instruction. -/
def decode (code : List Nat) (pc : Nat) : Option (MOp × Nat) :=
  Option.map (fun p => (p.1, pc + p.2)) (decodeList (code.drop pc))

/-- Machine state: program counter, the six registers the emitted code
touches, flags (operands of the last comparison), and memory. -/
structure MState where
  pc : Nat
  rax : Int
  rbx : Int
  rcx : Int
  rdx : Int
  rbp : Int
  rsp : Int
  flagA : Int
  flagB : Int
  mem : Int → Int

/-- Pointwise memory update. -/
def mupd (m : Int → Int) (a v : Int) : Int → Int :=
  fun x => if x = a then v else m x

/-- Result of one machine step. -/
inductive StepRes where
  | next (s : MState)
  | done (v : Int)
  | fault

/-- Result of a bounded machine run. -/
inductive ExecRes where
  | ok (v : Int)
  | fault
  | timeout
deriving DecidableEq

/-- Replace the low byte of a 64-bit register value (`setcc al`). -/
def setLow8 (r : Int) (b : Nat) : Int :=
  toSigned64 (toU64 r - toU64 r % 256 + b)

/-- Execute one decoded micro-operation.  `q` is the address of the next
instruction.  `retq` models returning to the caller: it is well-formed
exactly when `rsp` is back at its entry value `0`. -/
def execMOp (m : MOp) (q : Nat) (s : MState) : StepRes :=
  match m with
  | MOp.pushRbp =>
      StepRes.next { s with pc := q, rsp := s.rsp - 8, mem := mupd s.mem (s.rsp - 8) s.rbp }
  | MOp.movRbpRsp => StepRes.next { s with pc := q, rbp := s.rsp }
  | MOp.subRsp1024 => StepRes.next { s with pc := q, rsp := s.rsp - 1024 }
  | MOp.movRspRbp => StepRes.next { s with pc := q, rsp := s.rbp }
  | MOp.popRbp => StepRes.next { s with pc := q, rbp := s.mem s.rsp, rsp := s.rsp + 8 }
  | MOp.retq => if s.rsp = 0 then StepRes.done s.rax else StepRes.fault
  | MOp.movRaxImm n => StepRes.next { s with pc := q, rax := toSigned64 n }
  | MOp.pushRax =>
      StepRes.next { s with pc := q, rsp := s.rsp - 8, mem := mupd s.mem (s.rsp - 8) s.rax }
  | MOp.pushRbx =>
      StepRes.next { s with pc := q, rsp := s.rsp - 8, mem := mupd s.mem (s.rsp - 8) s.rbx }
  | MOp.popRax => StepRes.next { s with pc := q, rax := s.mem s.rsp, rsp := s.rsp + 8 }
  | MOp.popRbx => StepRes.next { s with pc := q, rbx := s.mem s.rsp, rsp := s.rsp + 8 }
  | MOp.movRaxMemRsp => StepRes.next { s with pc := q, rax := s.mem s.rsp }
  | MOp.addRaxRbx =>
      let r := wrap64 (s.rax + s.rbx)
      StepRes.next { s with pc := q, rax := r, flagA := r, flagB := 0 }
  | MOp.subRaxRbx =>
      let r := wrap64 (s.rax - s.rbx)
      StepRes.next { s with pc := q, rax := r, flagA := r, flagB := 0 }
  | MOp.imulRaxRbx =>
      let r := wrap64 (s.rax * s.rbx)
      StepRes.next { s with pc := q, rax := r, flagA := r, flagB := 0 }
  | MOp.andRaxRbx =>
      let r := Int.land s.rax s.rbx
      StepRes.next { s with pc := q, rax := r, flagA := r, flagB := 0 }
  | MOp.orRaxRbx =>
      let r := Int.lor s.rax s.rbx
      StepRes.next { s with pc := q, rax := r, flagA := r, flagB := 0 }
  | MOp.xorRaxRbx =>
      let r := Int.xor s.rax s.rbx
      StepRes.next { s with pc := q, rax := r, flagA := r, flagB := 0 }
  | MOp.xorRaxRax => StepRes.next { s with pc := q, rax := 0, flagA := 0, flagB := 0 }
  | MOp.cqo => StepRes.next { s with pc := q, rdx := if s.rax < 0 then -1 else 0 }
  | MOp.idivRbx =>
      if s.rdx ≠ (if s.rax < 0 then -1 else 0) then StepRes.fault
      else if s.rbx = 0 ∨ (s.rax = -9223372036854775808 ∧ s.rbx = -1) then StepRes.fault
      else StepRes.next
        { s with pc := q, rax := Int.tdiv s.rax s.rbx, rdx := Int.tmod s.rax s.rbx }
  | MOp.movRaxRdx => StepRes.next { s with pc := q, rax := s.rdx }
  | MOp.movRcxRbx => StepRes.next { s with pc := q, rcx := s.rbx }
  | MOp.shlRaxCl =>
      let cnt := toU64 s.rcx % 64
      let r := wrap64 (s.rax * (2 ^ cnt : Nat))
      StepRes.next { s with pc := q, rax := r, flagA := r, flagB := 0 }
  | MOp.sarRaxCl =>
      let cnt := toU64 s.rcx % 64
      let r := Int.fdiv s.rax ((2 ^ cnt : Nat) : Int)
      StepRes.next { s with pc := q, rax := r, flagA := r, flagB := 0 }
  | MOp.notRax => StepRes.next { s with pc := q, rax := wrap64 (-s.rax - 1) }
  | MOp.negRax =>
      let r := wrap64 (-s.rax)
      StepRes.next { s with pc := q, rax := r, flagA := r, flagB := 0 }
  | MOp.testRaxRax => StepRes.next { s with pc := q, flagA := s.rax, flagB := 0 }
  | MOp.cmpRaxRbx => StepRes.next { s with pc := q, flagA := s.rax, flagB := s.rbx }
  | MOp.sete =>
      StepRes.next { s with pc := q, rax := setLow8 s.rax (if s.flagA = s.flagB then 1 else 0) }
  | MOp.setne =>
      StepRes.next { s with pc := q, rax := setLow8 s.rax (if s.flagA = s.flagB then 0 else 1) }
  | MOp.setl =>
      StepRes.next { s with pc := q, rax := setLow8 s.rax (if s.flagA < s.flagB then 1 else 0) }
  | MOp.setle =>
      StepRes.next { s with pc := q, rax := setLow8 s.rax (if s.flagA ≤ s.flagB then 1 else 0) }
  | MOp.setg =>
      StepRes.next { s with pc := q, rax := setLow8 s.rax (if s.flagB < s.flagA then 1 else 0) }
  | MOp.setge =>
      StepRes.next { s with pc := q, rax := setLow8 s.rax (if s.flagB ≤ s.flagA then 1 else 0) }
  | MOp.movMemRbpRax d =>
      StepRes.next { s with pc := q, mem := mupd s.mem (s.rbp + toSigned32 d) s.rax }
  | MOp.movRaxMemRbp d => StepRes.next { s with pc := q, rax := s.mem (s.rbp + toSigned32 d) }
  | MOp.jmpRel d =>
      let t : Int := (q : Int) + toSigned32 d
      if t < 0 then StepRes.fault else StepRes.next { s with pc := t.toNat }
  | MOp.jzRel d =>
      if s.flagA = s.flagB then
        let t : Int := (q : Int) + toSigned32 d
        if t < 0 then StepRes.fault else StepRes.next { s with pc := t.toNat }
      else StepRes.next { s with pc := q }
  | MOp.jnzRel d =>
      if s.flagA = s.flagB then StepRes.next { s with pc := q }
      else
        let t : Int := (q : Int) + toSigned32 d
        if t < 0 then StepRes.fault else StepRes.next { s with pc := t.toNat }

/-- One machine step: decode at `pc` and execute; an undecodable byte
sequence faults. -/
def step (code : List Nat) (s : MState) : StepRes :=
  match decode code s.pc with
  | some (m, q) => execMOp m q s
  | none => StepRes.fault

/-- Fuel-bounded machine run. -/
def run (code : List Nat) : Nat → MState → ExecRes
  | 0, _ => ExecRes.timeout
  | fuel + 1, s =>
      match step code s with
      | StepRes.next s2 => run code fuel s2
      | StepRes.done v => ExecRes.ok v
      | StepRes.fault => ExecRes.fault

/-- The machine state in which the execution engine invokes the buffer:
entry point `0`, all registers and memory zeroed, `rsp = 0` (addresses are
relative to the entry stack pointer). -/
def initState : MState :=
  { pc := 0, rax := 0, rbx := 0, rcx := 0, rdx := 0, rbp := 0, rsp := 0,
    flagA := 0, flagB := 0, mem := fun _ => 0 }

/-- Run a compiled buffer from the invocation state. -/
def runOut (insts : List Instruction) (fuel : Nat) : Option ExecRes :=
  (compileOut insts).map (fun b => run b fuel initState)

/-! ## The execution engine's error paths (`Invoker::execute`)

The mmap/mprotect system calls are OS interactions; their success or failure
is an oracle input.  The source's control flow on those two calls is embedded
directly: a failed call is a Rust `panic!`, modelled as `ExecOutcome.panicked`
with the panic message. -/

/-- Outcome of `Invoker::execute`: a returned value, or a process panic. -/
inductive ExecOutcome where
  | ok (v : Int)
  | panicked (msg : String)
deriving DecidableEq

/-- `Invoker::execute`'s handling of the memory provisioning steps: if
`mmap` fails the source panics; if `mprotect` fails the source panics;
otherwise the buffer runs and its return value is delivered.  `callResult`
abstracts the value the executed buffer returns. -/
def Invoker.execute (mmapOk mprotectOk : Bool) (callResult : Int) : ExecOutcome :=
  if mmapOk = false then ExecOutcome.panicked ("failed to allocate memory for Invoker.")
  else if mprotectOk = false then
    ExecOutcome.panicked ("failed to make memory executable for Invoker.")
  else ExecOutcome.ok callResult

/-! ## Reference semantics for arithmetic programs

`evalStep`/`evalOps` are the spec side of the refinement claims: the
left-to-right stack evaluation of section 4.1 restricted to
`Load`/`Add`/`Sub`/`Mul`/`Div`/`Mod`, in the signed 64-bit domain, with the
operand-order rule "second pop is the left operand".  Division and modulus
are signed and truncate toward zero; they are undefined (`none`) at a zero
divisor and at the lone overflowing dividend/divisor pair. -/

/-- One step of the reference stack evaluation. -/
def evalStep (i : Instruction) (st : List Int) : Option (List Int) :=
  match i, st with
  | Instruction.load v, st => some (wrap64 v :: st)
  | Instruction.add, b :: a :: st => some (wrap64 (a + b) :: st)
  | Instruction.sub, b :: a :: st => some (wrap64 (a - b) :: st)
  | Instruction.mul, b :: a :: st => some (wrap64 (a * b) :: st)
  | Instruction.div, b :: a :: st =>
      if b = 0 ∨ (a = -9223372036854775808 ∧ b = -1) then none
      else some (Int.tdiv a b :: st)
  | Instruction.mod, b :: a :: st =>
      if b = 0 ∨ (a = -9223372036854775808 ∧ b = -1) then none
      else some (Int.tmod a b :: st)
  | _, _ => none

/-- Left-to-right reference stack evaluation of an arithmetic program. -/
def evalOps : List Instruction → List Int → Option (List Int)
  | [], st => some st
  | i :: rest, st => (evalStep i st).bind (evalOps rest)

/-- Machine-code bytes the compiler emits for one arithmetic instruction. -/
def chunkOf (i : Instruction) : List Nat :=
  match i with
  | Instruction.load v => [0x48, 0xB8] ++ i64Le v ++ [0x50]
  | Instruction.add => [0x5B, 0x58, 0x48, 0x01, 0xD8, 0x50]
  | Instruction.sub => [0x5B, 0x58, 0x48, 0x29, 0xD8, 0x50]
  | Instruction.mul => [0x5B, 0x58, 0x48, 0x0F, 0xAF, 0xC3, 0x50]
  | Instruction.div => [0x5B, 0x58, 0x48, 0x99, 0x48, 0xF7, 0xFB, 0x50]
  | Instruction.mod => [0x5B, 0x58, 0x48, 0x99, 0x48, 0xF7, 0xFB, 0x48, 0x89, 0xD0, 0x50]
  | _ => []

/-- Concatenated bytes for an arithmetic instruction sequence. -/
def bodyBytes (ops : List Instruction) : List Nat :=
  (ops.map chunkOf).flatten

/-- Machine steps needed for one arithmetic instruction. -/
def costOf (i : Instruction) : Nat :=
  match i with
  | Instruction.load _ => 2
  | Instruction.add => 4
  | Instruction.sub => 4
  | Instruction.mul => 4
  | Instruction.div => 5
  | Instruction.mod => 6
  | _ => 0

/-- Machine steps needed for an arithmetic instruction sequence. -/
def costOps (ops : List Instruction) : Nat :=
  (ops.map costOf).sum

/-- The fixed function prologue bytes. -/
def proBytes : List Nat := [0x55, 0x48, 0x89, 0xE5, 0x48, 0x81, 0xEC, 0x00, 0x04, 0x00, 0x00]

/-- The fixed function epilogue bytes. -/
def epiBytes : List Nat := [0x48, 0x89, 0xEC, 0x5D, 0xC3]

/-- State relation for the simulation: inside the generated function's body
the frame base sits at `-8`, the operand stack occupies consecutive 8-byte
cells below the 1024-byte frame, topmost at `rsp`. -/
def Inv (s : MState) (stack : List Int) : Prop :=
  s.rbp = -8 ∧ s.rsp = -1032 - 8 * (stack.length : Int) ∧
    ∀ i : Fin stack.length, s.mem (s.rsp + 8 * ((i : Nat) : Int)) = stack.get i

/-- `s1` reaches `s2` in exactly `k` machine steps, for every surplus fuel. -/
def StepsTo (code : List Nat) (k : Nat) (s1 s2 : MState) : Prop :=
  ∀ fuel, run code (k + fuel) s1 = run code fuel s2

/-- Whether an instruction belongs to the arithmetic fragment of claim C6. -/
def isArith (i : Instruction) : Bool :=
  match i with
  | Instruction.load _ => true
  | Instruction.add => true
  | Instruction.sub => true
  | Instruction.mul => true
  | Instruction.div => true
  | Instruction.mod => true
  | _ => false

/-! ## Programs named by the spec's test properties -/

/-- The spec's branch-taken example: `[Load(0), JmpIfNot(1), Load(999),
Label(1), Load(42), Ret]`. -/
def progBranchTaken : List Instruction :=
  [Instruction.load 0, Instruction.jmpIfNot 1, Instruction.load 999,
   Instruction.label 1, Instruction.load 42, Instruction.ret]

/-- The spec's branch-not-taken example: `[Load(1), JmpIfNot(1), Load(999),
Label(1), Load(42), Add, Ret]`. -/
def progBranchNotTaken : List Instruction :=
  [Instruction.load 1, Instruction.jmpIfNot 1, Instruction.load 999,
   Instruction.label 1, Instruction.load 42, Instruction.add, Instruction.ret]

/-- A counting loop: the counter in slot 0 runs from 0 until it reaches 10,
with a `Gte`/`JmpIf` exit test and a backward `Jmp` to the loop head. -/
def progLoop : List Instruction :=
  [Instruction.load 0, Instruction.store 0, Instruction.label 0,
   Instruction.loadVar 0, Instruction.load 10, Instruction.gte,
   Instruction.jmpIf 1, Instruction.loadVar 0, Instruction.load 1,
   Instruction.add, Instruction.store 0, Instruction.jmp 0,
   Instruction.label 1, Instruction.loadVar 0, Instruction.ret]

/-- The byte sequence obtained by compiling `p2` with the generator instance
that has just compiled `p1` (state carried over, as `Compiler::compile` does
not reset `labels` or `label_patches`). -/
def reuseOut (p1 p2 : List Instruction) : Option (List Nat) :=
  match Compiler.new.compile (Program.new p1) with
  | Except.ok (c1, _) =>
      match c1.compile (Program.new p2) with
      | Except.ok (_, b) => some b
      | Except.error _ => none
  | Except.error _ => none

/-! ## Basic lemmas: step composition, decoding at an offset -/

theorem stepsTo_one {code : List Nat} {s s2 : MState} (h : step code s = StepRes.next s2) :
    StepsTo code 1 s s2 := by
  intro fuel
  have e : 1 + fuel = fuel + 1 := Nat.add_comm 1 fuel
  rw [e]
  show (match step code s with
    | StepRes.next s2 => run code fuel s2
    | StepRes.done v => ExecRes.ok v
    | StepRes.fault => ExecRes.fault) = run code fuel s2
  rw [h]

theorem stepsTo_trans {code : List Nat} {k1 k2 : Nat} {s1 s2 s3 : MState}
    (h1 : StepsTo code k1 s1 s2) (h2 : StepsTo code k2 s2 s3) :
    StepsTo code (k1 + k2) s1 s3 := by
  intro fuel
  have e : k1 + k2 + fuel = k1 + (k2 + fuel) := by omega
  rw [e, h1, h2]

theorem decode_append (pre x : List Nat) (k : Nat) :
    decode (pre ++ x) (pre.length + k) =
      Option.map (fun p => (p.1, pre.length + k + p.2)) (decodeList (x.drop k)) := by
  unfold decode
  rw [← List.drop_drop, List.drop_left]

theorem step_at {pre x : List Nat} {k : Nat} {s : MState} {m : MOp} {sz : Nat}
    (hpc : s.pc = pre.length + k) (hd : decodeList (x.drop k) = some (m, sz)) :
    step (pre ++ x) s = execMOp m (pre.length + k + sz) s := by
  unfold step
  rw [hpc, decode_append, hd]
  rfl

/-! ## Little-endian roundtrips and signed-range facts -/

theorem toU64_lt (v : Int) : toU64 v < 18446744073709551616 := by
  unfold toU64
  omega

theorem leVal8_natLe8 (n : Nat) (h : n < 18446744073709551616) :
    leVal8 (n % 256) (n / 256 % 256) (n / 65536 % 256) (n / 16777216 % 256)
      (n / 4294967296 % 256) (n / 1099511627776 % 256) (n / 281474976710656 % 256)
      (n / 72057594037927936 % 256) = n := by
  unfold leVal8
  omega

theorem wrap64_eq_self {v : Int} (h1 : -9223372036854775808 ≤ v)
    (h2 : v < 9223372036854775808) : wrap64 v = v := by
  unfold wrap64 toSigned64 toU64
  split <;> omega

theorem wrap64_range (v : Int) :
    -9223372036854775808 ≤ wrap64 v ∧ wrap64 v < 9223372036854775808 := by
  unfold wrap64 toSigned64 toU64
  split <;> omega

/-- Decoding the 10-byte `mov rax, imm64` the compiler emits recovers the
immediate. -/
theorem decodeList_load (v : Int) (t : List Nat) :
    decodeList (chunkOf (Instruction.load v) ++ t) = some (MOp.movRaxImm (toU64 v), 10) := by
  show decodeList (0x48 :: 0xB8 :: (natLe8 (toU64 v) ++ ([0x50] ++ t))) = _
  unfold natLe8
  show some (MOp.movRaxImm (leVal8 _ _ _ _ _ _ _ _), 10) = _
  rw [leVal8_natLe8 (toU64 v) (toU64_lt v)]

/-! ## Invariant preservation helpers -/

theorem inv_push {s s2 : MState} {stack : List Int} (hinv : Inv s stack) (v : Int)
    (hb : s2.rbp = s.rbp) (hr : s2.rsp = s.rsp - 8) (hm : s2.mem = mupd s.mem (s.rsp - 8) v) :
    Inv s2 (v :: stack) := by
  obtain ⟨h1, h2, h3⟩ := hinv
  refine ⟨by rw [hb, h1], by rw [hr, h2]; simp only [List.length_cons]; push_cast; ring, ?_⟩
  intro i
  match i with
  | ⟨0, hi⟩ =>
      show s2.mem (s2.rsp + 8 * ((0 : Nat) : Int)) = v
      rw [hm, hr]
      show mupd s.mem (s.rsp - 8) v (s.rsp - 8 + 8 * ((0 : Nat) : Int)) = v
      have : s.rsp - 8 + 8 * ((0 : Nat) : Int) = s.rsp - 8 := by push_cast; ring
      rw [this]
      unfold mupd
      simp
  | ⟨j + 1, hi⟩ =>
      have hj : j < stack.length := by simp only [List.length_cons] at hi; omega
      show s2.mem (s2.rsp + 8 * ((j + 1 : Nat) : Int)) = stack.get ⟨j, hj⟩
      rw [hm, hr]
      have e : s.rsp - 8 + 8 * ((j + 1 : Nat) : Int) = s.rsp + 8 * ((j : Nat) : Int) := by
        push_cast
        ring
      rw [e]
      unfold mupd
      have hne : s.rsp + 8 * ((j : Nat) : Int) ≠ s.rsp - 8 := by
        have : (0 : Int) ≤ 8 * ((j : Nat) : Int) := by positivity
        omega
      rw [if_neg hne]
      exact h3 ⟨j, hj⟩

theorem inv_top {s : MState} {a : Int} {stack : List Int} (hinv : Inv s (a :: stack)) :
    s.mem s.rsp = a := by
  obtain ⟨-, -, h3⟩ := hinv
  have := h3 ⟨0, by simp⟩
  have e : s.rsp + 8 * ((0 : Nat) : Int) = s.rsp := by push_cast; ring
  rw [e] at this
  exact this

theorem inv_pop {s s2 : MState} {a : Int} {stack : List Int} (hinv : Inv s (a :: stack))
    (hb : s2.rbp = s.rbp) (hr : s2.rsp = s.rsp + 8) (hm : s2.mem = s.mem) :
    Inv s2 stack := by
  obtain ⟨h1, h2, h3⟩ := hinv
  refine ⟨by rw [hb, h1], by rw [hr, h2]; simp only [List.length_cons]; push_cast; ring, ?_⟩
  intro i
  match i with
  | ⟨j, hj⟩ =>
      show s2.mem (s2.rsp + 8 * ((j : Nat) : Int)) = stack.get ⟨j, hj⟩
      rw [hm, hr]
      have e : s.rsp + 8 + 8 * ((j : Nat) : Int) = s.rsp + 8 * ((j + 1 : Nat) : Int) := by
        push_cast
        ring
      rw [e]
      exact h3 ⟨j + 1, by simp only [List.length_cons]; omega⟩

theorem inv_keep {s s2 : MState} {stack : List Int} (hinv : Inv s stack)
    (hb : s2.rbp = s.rbp) (hr : s2.rsp = s.rsp) (hm : s2.mem = s.mem) :
    Inv s2 stack := by
  obtain ⟨h1, h2, h3⟩ := hinv
  exact ⟨by rw [hb, h1], by rw [hr, h2], fun i => by rw [hm, hr]; exact h3 i⟩

/-! ## Shape of the code emitted for arithmetic programs -/

theorem emit_load_imm_eq (c : Compiler) (v : Int) :
    c.emit_load_imm v =
      { bytecode := c.bytecode ++ chunkOf (Instruction.load v),
        stk_offset := c.stk_offset + 8, labels := c.labels,
        label_patches := c.label_patches } := by
  simp [Compiler.emit_load_imm, Compiler.emit, chunkOf]

theorem emit_binop_add_eq (c : Compiler) :
    c.emit_binop ("add") = Except.ok
      { bytecode := c.bytecode ++ chunkOf Instruction.add,
        stk_offset := c.stk_offset - 8, labels := c.labels,
        label_patches := c.label_patches } := by
  simp [Compiler.emit_binop, Compiler.emit, chunkOf]

theorem emit_binop_sub_eq (c : Compiler) :
    c.emit_binop ("sub") = Except.ok
      { bytecode := c.bytecode ++ chunkOf Instruction.sub,
        stk_offset := c.stk_offset - 8, labels := c.labels,
        label_patches := c.label_patches } := by
  simp [Compiler.emit_binop, Compiler.emit, chunkOf]

theorem emit_binop_mul_eq (c : Compiler) :
    c.emit_binop ("mul") = Except.ok
      { bytecode := c.bytecode ++ chunkOf Instruction.mul,
        stk_offset := c.stk_offset - 8, labels := c.labels,
        label_patches := c.label_patches } := by
  simp [Compiler.emit_binop, Compiler.emit, chunkOf]

theorem emit_binop_div_eq (c : Compiler) :
    c.emit_binop ("div") = Except.ok
      { bytecode := c.bytecode ++ chunkOf Instruction.div,
        stk_offset := c.stk_offset - 8, labels := c.labels,
        label_patches := c.label_patches } := by
  simp [Compiler.emit_binop, Compiler.emit, chunkOf]

theorem emit_binop_mod_eq (c : Compiler) :
    c.emit_binop ("mod") = Except.ok
      { bytecode := c.bytecode ++ chunkOf Instruction.mod,
        stk_offset := c.stk_offset - 8, labels := c.labels,
        label_patches := c.label_patches } := by
  simp [Compiler.emit_binop, Compiler.emit, chunkOf]

theorem compile_loop_arith (ops : List Instruction) :
    ∀ c : Compiler, ops.all isArith = true →
      ∃ c2, Compiler.compile_loop c (ops ++ [Instruction.ret]) = Except.ok c2 ∧
        c2.bytecode = c.bytecode ++ (bodyBytes ops ++ [0x58]) ∧
        c2.labels = c.labels ∧ c2.label_patches = c.label_patches := by
  induction ops with
  | nil =>
      intro c _
      refine ⟨c.emit [0x58], rfl, ?_, rfl, rfl⟩
      simp [Compiler.emit, bodyBytes]
  | cons i rest ih =>
      intro c hall
      rw [List.all_cons, Bool.and_eq_true] at hall
      have h1 : isArith i = true := hall.1
      have h2 : rest.all isArith = true := hall.2
      cases i with
      | load v =>
          obtain ⟨c2, hc2, hb, hl, hp⟩ := ih (c.emit_load_imm v) h2
          refine ⟨c2, hc2, ?_, ?_, ?_⟩
          · rw [hb, emit_load_imm_eq]
            simp [bodyBytes, List.append_assoc]
          · rw [hl, emit_load_imm_eq]
          · rw [hp, emit_load_imm_eq]
      | add =>
          obtain ⟨c2, hc2, hb, hl, hp⟩ :=
            ih { bytecode := c.bytecode ++ chunkOf Instruction.add,
                 stk_offset := c.stk_offset - 8, labels := c.labels,
                 label_patches := c.label_patches } h2
          refine ⟨c2, ?_, ?_, hl, hp⟩
          · simp only [Compiler.compile_loop]
            rw [emit_binop_add_eq]
            exact hc2
          · rw [hb]
            simp [bodyBytes, List.append_assoc]
      | sub =>
          obtain ⟨c2, hc2, hb, hl, hp⟩ :=
            ih { bytecode := c.bytecode ++ chunkOf Instruction.sub,
                 stk_offset := c.stk_offset - 8, labels := c.labels,
                 label_patches := c.label_patches } h2
          refine ⟨c2, ?_, ?_, hl, hp⟩
          · simp only [Compiler.compile_loop]
            rw [emit_binop_sub_eq]
            exact hc2
          · rw [hb]
            simp [bodyBytes, List.append_assoc]
      | mul =>
          obtain ⟨c2, hc2, hb, hl, hp⟩ :=
            ih { bytecode := c.bytecode ++ chunkOf Instruction.mul,
                 stk_offset := c.stk_offset - 8, labels := c.labels,
                 label_patches := c.label_patches } h2
          refine ⟨c2, ?_, ?_, hl, hp⟩
          · simp only [Compiler.compile_loop]
            rw [emit_binop_mul_eq]
            exact hc2
          · rw [hb]
            simp [bodyBytes, List.append_assoc]
      | div =>
          obtain ⟨c2, hc2, hb, hl, hp⟩ :=
            ih { bytecode := c.bytecode ++ chunkOf Instruction.div,
                 stk_offset := c.stk_offset - 8, labels := c.labels,
                 label_patches := c.label_patches } h2
          refine ⟨c2, ?_, ?_, hl, hp⟩
          · simp only [Compiler.compile_loop]
            rw [emit_binop_div_eq]
            exact hc2
          · rw [hb]
            simp [bodyBytes, List.append_assoc]
      | mod =>
          obtain ⟨c2, hc2, hb, hl, hp⟩ :=
            ih { bytecode := c.bytecode ++ chunkOf Instruction.mod,
                 stk_offset := c.stk_offset - 8, labels := c.labels,
                 label_patches := c.label_patches } h2
          refine ⟨c2, ?_, ?_, hl, hp⟩
          · simp only [Compiler.compile_loop]
            rw [emit_binop_mod_eq]
            exact hc2
          · rw [hb]
            simp [bodyBytes, List.append_assoc]
      | dup => exact absurd h1 (by simp [isArith])
      | pop => exact absurd h1 (by simp [isArith])
      | swap => exact absurd h1 (by simp [isArith])
      | neg => exact absurd h1 (by simp [isArith])
      | eq => exact absurd h1 (by simp [isArith])
      | ne => exact absurd h1 (by simp [isArith])
      | lt => exact absurd h1 (by simp [isArith])
      | gt => exact absurd h1 (by simp [isArith])
      | lte => exact absurd h1 (by simp [isArith])
      | gte => exact absurd h1 (by simp [isArith])
      | and => exact absurd h1 (by simp [isArith])
      | or => exact absurd h1 (by simp [isArith])
      | not => exact absurd h1 (by simp [isArith])
      | band => exact absurd h1 (by simp [isArith])
      | bor => exact absurd h1 (by simp [isArith])
      | bxor => exact absurd h1 (by simp [isArith])
      | bnot => exact absurd h1 (by simp [isArith])
      | shl => exact absurd h1 (by simp [isArith])
      | shr => exact absurd h1 (by simp [isArith])
      | store id => exact absurd h1 (by simp [isArith])
      | loadVar id => exact absurd h1 (by simp [isArith])
      | jmp l => exact absurd h1 (by simp [isArith])
      | jmpIf l => exact absurd h1 (by simp [isArith])
      | jmpIfNot l => exact absurd h1 (by simp [isArith])
      | label id => exact absurd h1 (by simp [isArith])
      | call l => exact absurd h1 (by simp [isArith])
      | write => exact absurd h1 (by simp [isArith])
      | writeChar => exact absurd h1 (by simp [isArith])
      | read => exact absurd h1 (by simp [isArith])
      | ret => exact absurd h1 (by simp [isArith])
      | halt => exact absurd h1 (by simp [isArith])

theorem collect_labels_no_label : ∀ (l : List Instruction) (c : Compiler),
    (∀ id, ¬ Instruction.label id ∈ l) → c.collect_labels l = c := by
  intro l
  induction l with
  | nil => intro c _; rfl
  | cons i rest ih =>
      intro c h
      have hrest : ∀ id, ¬ Instruction.label id ∈ rest := by
        intro id hmem
        exact h id (List.mem_cons_of_mem i hmem)
      cases i with
      | label id => exact absurd (List.mem_cons_self _ _) (h id)
      | load v => exact ih c hrest
      | dup => exact ih c hrest
      | pop => exact ih c hrest
      | swap => exact ih c hrest
      | add => exact ih c hrest
      | sub => exact ih c hrest
      | mul => exact ih c hrest
      | div => exact ih c hrest
      | mod => exact ih c hrest
      | neg => exact ih c hrest
      | eq => exact ih c hrest
      | ne => exact ih c hrest
      | lt => exact ih c hrest
      | gt => exact ih c hrest
      | lte => exact ih c hrest
      | gte => exact ih c hrest
      | and => exact ih c hrest
      | or => exact ih c hrest
      | not => exact ih c hrest
      | band => exact ih c hrest
      | bor => exact ih c hrest
      | bxor => exact ih c hrest
      | bnot => exact ih c hrest
      | shl => exact ih c hrest
      | shr => exact ih c hrest
      | store id => exact ih c hrest
      | loadVar id => exact ih c hrest
      | jmp l2 => exact ih c hrest
      | jmpIf l2 => exact ih c hrest
      | jmpIfNot l2 => exact ih c hrest
      | call l2 => exact ih c hrest
      | write => exact ih c hrest
      | writeChar => exact ih c hrest
      | read => exact ih c hrest
      | ret => exact ih c hrest
      | halt => exact ih c hrest

/-- `patch_jumps` with an empty patch list changes nothing. -/
theorem patch_jumps_no_patches (c : Compiler) (h : c.label_patches = []) :
    c.patch_jumps = Except.ok c := by
  obtain ⟨bc, so, lb, lp⟩ := c
  simp only at h
  subst h
  rfl

/-- Compiling a pure arithmetic program with a fresh compiler yields the
prologue, the instruction chunks, the `pop rax` of `Ret`, and the
epilogue. -/
theorem compile_arith (ops : List Instruction) (hall : ops.all isArith = true) :
    compileOut (ops ++ [Instruction.ret]) =
      some (proBytes ++ (bodyBytes ops ++ ([0x58] ++ epiBytes))) := by
  have hnl : ∀ id, ¬ Instruction.label id ∈ ops ++ [Instruction.ret] := by
    intro id hmem
    rcases List.mem_append.mp hmem with h | h
    · have := List.all_eq_true.mp hall _ h
      simp [isArith] at this
    · simp at h
  obtain ⟨c2, hc2, hb, hl, hp⟩ :=
    compile_loop_arith ops (Compiler.new.emit_fn_prologue) hall
  have hppro : (Compiler.new.emit_fn_prologue).label_patches = [] := rfl
  have hpatch : c2.patch_jumps = Except.ok c2 :=
    patch_jumps_no_patches c2 (by rw [hp, hppro])
  have hcompile : Compiler.new.compile (Program.new (ops ++ [Instruction.ret])) =
      Except.ok (c2.emit_fn_epilogue, c2.emit_fn_epilogue.bytecode) := by
    show (match (Compiler.new.emit_fn_prologue.collect_labels
        (ops ++ [Instruction.ret])).compile_loop (ops ++ [Instruction.ret]) with
      | Except.error e => Except.error e
      | Except.ok c =>
          match c.patch_jumps with
          | Except.error e => Except.error e
          | Except.ok c => Except.ok (c.emit_fn_epilogue, c.emit_fn_epilogue.bytecode)) =
        Except.ok (c2.emit_fn_epilogue, c2.emit_fn_epilogue.bytecode)
    rw [collect_labels_no_label _ _ hnl, hc2]
    show (match c2.patch_jumps with
      | Except.error e => Except.error e
      | Except.ok c => Except.ok (c.emit_fn_epilogue, c.emit_fn_epilogue.bytecode)) =
        Except.ok (c2.emit_fn_epilogue, c2.emit_fn_epilogue.bytecode)
    rw [hpatch]
  unfold compileOut
  rw [hcompile]
  show some (c2.emit_fn_epilogue.bytecode) = _
  have hpro : (Compiler.new.emit_fn_prologue).bytecode = proBytes := rfl
  unfold Compiler.emit_fn_epilogue Compiler.emit
  show some (c2.bytecode ++ [0x48, 0x89, 0xEC] ++ [0x5D] ++ [0xC3]) = _
  rw [hb, hpro]
  simp [proBytes, epiBytes, List.append_assoc]

/-! ## Per-instruction machine simulation -/

theorem inv_second {s : MState} {b a : Int} {stack : List Int}
    (hinv : Inv s (b :: a :: stack)) : s.mem (s.rsp + 8) = a := by
  obtain ⟨-, -, h3⟩ := hinv
  have := h3 ⟨1, by simp⟩
  have e : s.rsp + 8 * ((1 : Nat) : Int) = s.rsp + 8 := by push_cast; ring
  rw [e] at this
  exact this

theorem sim_load {pre t : List Nat} {v : Int} {s : MState} {stack : List Int}
    (hpc : s.pc = pre.length) (hinv : Inv s stack) :
    ∃ s2, StepsTo (pre ++ (chunkOf (Instruction.load v) ++ t)) 2 s s2 ∧
      s2.pc = pre.length + 11 ∧ Inv s2 (wrap64 v :: stack) := by
  have h1 : step (pre ++ (chunkOf (Instruction.load v) ++ t)) s
      = StepRes.next { s with pc := pre.length + 10, rax := wrap64 v } := by
    have hd1 : decodeList ((chunkOf (Instruction.load v) ++ t).drop 0) = some (MOp.movRaxImm (toU64 v), 10) := decodeList_load v t
    rw [step_at (show s.pc = pre.length + 0 from by omega) hd1]
    rfl
  have h2 : step (pre ++ (chunkOf (Instruction.load v) ++ t)) { s with pc := pre.length + 10, rax := wrap64 v }
      = StepRes.next { s with pc := pre.length + 10 + 1, rax := wrap64 v, rsp := s.rsp - 8, mem := mupd s.mem (s.rsp - 8) (wrap64 v) } := by
    have hd2 : decodeList ((chunkOf (Instruction.load v) ++ t).drop 10) = some (MOp.pushRax, 1) := rfl
    rw [step_at (show MState.pc { s with pc := pre.length + 10, rax := wrap64 v } = pre.length + 10 from rfl) hd2]
    rfl
  refine ⟨_, stepsTo_trans (stepsTo_one h1) (stepsTo_one h2), by simp, ?_⟩
  exact inv_push hinv (wrap64 v) rfl rfl rfl

theorem sim_binop {enc : List Nat} {m : MOp} {sz : Nat} {f : Int → Int → Int}
    (hd : ∀ u : List Nat, decodeList (enc ++ u) = some (m, sz))
    (hx : ∀ (q : Nat) (s : MState), execMOp m q s = StepRes.next
      { s with pc := q, rax := f s.rax s.rbx, flagA := f s.rax s.rbx, flagB := 0 })
    (hlen : enc.length = sz)
    {pre t : List Nat} {s : MState} {b a : Int} {stack : List Int}
    (hpc : s.pc = pre.length) (hinv : Inv s (b :: a :: stack)) :
    ∃ s2, StepsTo (pre ++ (([0x5B, 0x58] ++ (enc ++ [0x50])) ++ t)) 4 s s2 ∧
      s2.pc = pre.length + (sz + 3) ∧ Inv s2 (f a b :: stack) := by
  have hb := inv_top hinv
  have ha := inv_second hinv
  have h1 : step (pre ++ (([0x5B, 0x58] ++ (enc ++ [0x50])) ++ t)) s
      = StepRes.next { s with pc := pre.length + 1, rbx := b, rsp := s.rsp + 8 } := by
    have hd1 : decodeList ((([0x5B, 0x58] ++ (enc ++ [0x50])) ++ t).drop 0) = some (MOp.popRbx, 1) := rfl
    rw [step_at (show s.pc = pre.length + 0 from by omega) hd1]
    show StepRes.next { s with pc := pre.length + 1, rbx := s.mem s.rsp, rsp := s.rsp + 8 } = _
    rw [hb]
  have h2 : step (pre ++ (([0x5B, 0x58] ++ (enc ++ [0x50])) ++ t)) { s with pc := pre.length + 1, rbx := b, rsp := s.rsp + 8 }
      = StepRes.next { s with pc := pre.length + 2, rax := a, rbx := b, rsp := s.rsp + 8 + 8 } := by
    have hd2 : decodeList ((([0x5B, 0x58] ++ (enc ++ [0x50])) ++ t).drop 1) = some (MOp.popRax, 1) := rfl
    rw [step_at (show MState.pc { s with pc := pre.length + 1, rbx := b, rsp := s.rsp + 8 } = pre.length + 1 from rfl) hd2]
    show StepRes.next { s with pc := pre.length + 2, rax := s.mem (s.rsp + 8), rbx := b, rsp := s.rsp + 8 + 8 } = _
    rw [ha]
  have hd3 : decodeList ((([0x5B, 0x58] ++ (enc ++ [0x50])) ++ t).drop 2) = some (m, sz) := by
    show decodeList ((enc ++ [0x50]) ++ t) = some (m, sz)
    rw [List.append_assoc]
    exact hd ([0x50] ++ t)
  have h3 : step (pre ++ (([0x5B, 0x58] ++ (enc ++ [0x50])) ++ t)) { s with pc := pre.length + 2, rax := a, rbx := b, rsp := s.rsp + 8 + 8 }
      = StepRes.next { s with pc := pre.length + 2 + sz, rax := f a b, rbx := b, rsp := s.rsp + 8 + 8, flagA := f a b, flagB := 0 } := by
    rw [step_at (show MState.pc { s with pc := pre.length + 2, rax := a, rbx := b, rsp := s.rsp + 8 + 8 } = pre.length + 2 from rfl) hd3, hx]
  have hd4 : decodeList ((([0x5B, 0x58] ++ (enc ++ [0x50])) ++ t).drop (sz + 2)) = some (MOp.pushRax, 1) := by
    show decodeList (((enc ++ [0x50]) ++ t).drop sz) = some (MOp.pushRax, 1)
    rw [List.append_assoc, ← hlen, List.drop_left]
    rfl
  have h4 : step (pre ++ (([0x5B, 0x58] ++ (enc ++ [0x50])) ++ t)) { s with pc := pre.length + 2 + sz, rax := f a b, rbx := b, rsp := s.rsp + 8 + 8, flagA := f a b, flagB := 0 }
      = StepRes.next { s with pc := pre.length + (sz + 2) + 1, rax := f a b, rbx := b, rsp := s.rsp + 8 + 8 - 8, mem := mupd s.mem (s.rsp + 8 + 8 - 8) (f a b), flagA := f a b, flagB := 0 } := by
    rw [step_at (show MState.pc { s with pc := pre.length + 2 + sz, rax := f a b, rbx := b, rsp := s.rsp + 8 + 8, flagA := f a b, flagB := 0 } = pre.length + (sz + 2) from by show pre.length + 2 + sz = _; omega) hd4]
    rfl
  refine ⟨_, stepsTo_trans (stepsTo_trans (stepsTo_one h1) (stepsTo_one h2))
    (stepsTo_trans (stepsTo_one h3) (stepsTo_one h4)),
    by show pre.length + (sz + 2) + 1 = _; omega, ?_⟩
  have hinv1 : Inv { s with pc := pre.length + 1, rbx := b, rsp := s.rsp + 8 } (a :: stack) :=
    inv_pop hinv rfl rfl rfl
  have hinv2 : Inv { s with pc := pre.length + 2, rax := a, rbx := b, rsp := s.rsp + 8 + 8 } stack :=
    inv_pop hinv1 rfl rfl rfl
  have hinv3 : Inv { s with pc := pre.length + 2 + sz, rax := f a b, rbx := b, rsp := s.rsp + 8 + 8, flagA := f a b, flagB := 0 } stack :=
    inv_keep hinv2 rfl rfl rfl
  exact inv_push hinv3 (f a b) rfl rfl rfl

theorem execMOp_idiv {q : Nat} {s : MState} (h1 : s.rdx = (if s.rax < 0 then -1 else 0))
    (h2 : ¬(s.rbx = 0 ∨ (s.rax = -9223372036854775808 ∧ s.rbx = -1))) :
    execMOp MOp.idivRbx q s = StepRes.next { s with pc := q, rax := Int.tdiv s.rax s.rbx, rdx := Int.tmod s.rax s.rbx } := by
  simp only [execMOp]
  rw [if_neg (by simp [h1]), if_neg h2]

theorem execMOp_idiv_fault {q : Nat} {s : MState} (h1 : s.rdx = (if s.rax < 0 then -1 else 0))
    (h2 : s.rbx = 0 ∨ (s.rax = -9223372036854775808 ∧ s.rbx = -1)) :
    execMOp MOp.idivRbx q s = StepRes.fault := by
  simp only [execMOp]
  rw [if_neg (by simp [h1]), if_pos h2]

theorem sim_div {pre t : List Nat} {s : MState} {b a : Int} {stack : List Int}
    (hpc : s.pc = pre.length) (hinv : Inv s (b :: a :: stack))
    (hc : ¬(b = 0 ∨ (a = -9223372036854775808 ∧ b = -1))) :
    ∃ s2, StepsTo (pre ++ (chunkOf Instruction.div ++ t)) 5 s s2 ∧
      s2.pc = pre.length + 8 ∧ Inv s2 (Int.tdiv a b :: stack) := by
  have hvb := inv_top hinv
  have hva := inv_second hinv
  have h1 : step (pre ++ (chunkOf Instruction.div ++ t)) s
      = StepRes.next { s with pc := pre.length + 1, rbx := b, rsp := s.rsp + 8 } := by
    have hd1 : decodeList ((chunkOf Instruction.div ++ t).drop 0) = some (MOp.popRbx, 1) := rfl
    rw [step_at (show s.pc = pre.length + 0 from by omega) hd1]
    show StepRes.next { s with pc := pre.length + 1, rbx := s.mem s.rsp, rsp := s.rsp + 8 } = _
    rw [hvb]
  have h2 : step (pre ++ (chunkOf Instruction.div ++ t)) { s with pc := pre.length + 1, rbx := b, rsp := s.rsp + 8 }
      = StepRes.next { s with pc := pre.length + 2, rax := a, rbx := b, rsp := s.rsp + 8 + 8 } := by
    have hd2 : decodeList ((chunkOf Instruction.div ++ t).drop 1) = some (MOp.popRax, 1) := rfl
    rw [step_at (show MState.pc { s with pc := pre.length + 1, rbx := b, rsp := s.rsp + 8 } = pre.length + 1 from rfl) hd2]
    show StepRes.next { s with pc := pre.length + 2, rax := s.mem (s.rsp + 8), rbx := b, rsp := s.rsp + 8 + 8 } = _
    rw [hva]
  have h3 : step (pre ++ (chunkOf Instruction.div ++ t)) { s with pc := pre.length + 2, rax := a, rbx := b, rsp := s.rsp + 8 + 8 }
      = StepRes.next { s with pc := pre.length + 2 + 2, rax := a, rbx := b, rdx := if a < 0 then -1 else 0, rsp := s.rsp + 8 + 8 } := by
    have hd3 : decodeList ((chunkOf Instruction.div ++ t).drop 2) = some (MOp.cqo, 2) := rfl
    rw [step_at (show MState.pc { s with pc := pre.length + 2, rax := a, rbx := b, rsp := s.rsp + 8 + 8 } = pre.length + 2 from rfl) hd3]
    rfl
  have h4 : step (pre ++ (chunkOf Instruction.div ++ t)) { s with pc := pre.length + 2 + 2, rax := a, rbx := b, rdx := if a < 0 then -1 else 0, rsp := s.rsp + 8 + 8 }
      = StepRes.next { s with pc := pre.length + 4 + 3, rax := Int.tdiv a b, rbx := b, rdx := Int.tmod a b, rsp := s.rsp + 8 + 8 } := by
    have hd4 : decodeList ((chunkOf Instruction.div ++ t).drop 4) = some (MOp.idivRbx, 3) := rfl
    rw [step_at (show MState.pc { s with pc := pre.length + 2 + 2, rax := a, rbx := b, rdx := if a < 0 then -1 else 0, rsp := s.rsp + 8 + 8 } = pre.length + 4 from by show pre.length + 2 + 2 = _; omega) hd4]
    exact execMOp_idiv rfl hc
  have h5 : step (pre ++ (chunkOf Instruction.div ++ t)) { s with pc := pre.length + 4 + 3, rax := Int.tdiv a b, rbx := b, rdx := Int.tmod a b, rsp := s.rsp + 8 + 8 }
      = StepRes.next { s with pc := pre.length + 7 + 1, rax := Int.tdiv a b, rbx := b, rdx := Int.tmod a b, rsp := s.rsp + 8 + 8 - 8, mem := mupd s.mem (s.rsp + 8 + 8 - 8) (Int.tdiv a b) } := by
    have hd5 : decodeList ((chunkOf Instruction.div ++ t).drop 7) = some (MOp.pushRax, 1) := rfl
    rw [step_at (show MState.pc { s with pc := pre.length + 4 + 3, rax := Int.tdiv a b, rbx := b, rdx := Int.tmod a b, rsp := s.rsp + 8 + 8 } = pre.length + 7 from by show pre.length + 4 + 3 = _; omega) hd5]
    rfl
  refine ⟨_, stepsTo_trans (stepsTo_trans (stepsTo_one h1) (stepsTo_one h2))
    (stepsTo_trans (stepsTo_trans (stepsTo_one h3) (stepsTo_one h4)) (stepsTo_one h5)),
    by show pre.length + 7 + 1 = _; omega, ?_⟩
  have hinv1 : Inv { s with pc := pre.length + 1, rbx := b, rsp := s.rsp + 8 } (a :: stack) :=
    inv_pop hinv rfl rfl rfl
  have hinv2 : Inv { s with pc := pre.length + 2, rax := a, rbx := b, rsp := s.rsp + 8 + 8 } stack :=
    inv_pop hinv1 rfl rfl rfl
  have hinv4 : Inv { s with pc := pre.length + 4 + 3, rax := Int.tdiv a b, rbx := b, rdx := Int.tmod a b, rsp := s.rsp + 8 + 8 } stack :=
    inv_keep hinv2 rfl rfl rfl
  exact inv_push hinv4 (Int.tdiv a b) rfl rfl rfl

theorem sim_mod {pre t : List Nat} {s : MState} {b a : Int} {stack : List Int}
    (hpc : s.pc = pre.length) (hinv : Inv s (b :: a :: stack))
    (hc : ¬(b = 0 ∨ (a = -9223372036854775808 ∧ b = -1))) :
    ∃ s2, StepsTo (pre ++ (chunkOf Instruction.mod ++ t)) 6 s s2 ∧
      s2.pc = pre.length + 11 ∧ Inv s2 (Int.tmod a b :: stack) := by
  have hvb := inv_top hinv
  have hva := inv_second hinv
  have h1 : step (pre ++ (chunkOf Instruction.mod ++ t)) s
      = StepRes.next { s with pc := pre.length + 1, rbx := b, rsp := s.rsp + 8 } := by
    have hd1 : decodeList ((chunkOf Instruction.mod ++ t).drop 0) = some (MOp.popRbx, 1) := rfl
    rw [step_at (show s.pc = pre.length + 0 from by omega) hd1]
    show StepRes.next { s with pc := pre.length + 1, rbx := s.mem s.rsp, rsp := s.rsp + 8 } = _
    rw [hvb]
  have h2 : step (pre ++ (chunkOf Instruction.mod ++ t)) { s with pc := pre.length + 1, rbx := b, rsp := s.rsp + 8 }
      = StepRes.next { s with pc := pre.length + 2, rax := a, rbx := b, rsp := s.rsp + 8 + 8 } := by
    have hd2 : decodeList ((chunkOf Instruction.mod ++ t).drop 1) = some (MOp.popRax, 1) := rfl
    rw [step_at (show MState.pc { s with pc := pre.length + 1, rbx := b, rsp := s.rsp + 8 } = pre.length + 1 from rfl) hd2]
    show StepRes.next { s with pc := pre.length + 2, rax := s.mem (s.rsp + 8), rbx := b, rsp := s.rsp + 8 + 8 } = _
    rw [hva]
  have h3 : step (pre ++ (chunkOf Instruction.mod ++ t)) { s with pc := pre.length + 2, rax := a, rbx := b, rsp := s.rsp + 8 + 8 }
      = StepRes.next { s with pc := pre.length + 2 + 2, rax := a, rbx := b, rdx := if a < 0 then -1 else 0, rsp := s.rsp + 8 + 8 } := by
    have hd3 : decodeList ((chunkOf Instruction.mod ++ t).drop 2) = some (MOp.cqo, 2) := rfl
    rw [step_at (show MState.pc { s with pc := pre.length + 2, rax := a, rbx := b, rsp := s.rsp + 8 + 8 } = pre.length + 2 from rfl) hd3]
    rfl
  have h4 : step (pre ++ (chunkOf Instruction.mod ++ t)) { s with pc := pre.length + 2 + 2, rax := a, rbx := b, rdx := if a < 0 then -1 else 0, rsp := s.rsp + 8 + 8 }
      = StepRes.next { s with pc := pre.length + 4 + 3, rax := Int.tdiv a b, rbx := b, rdx := Int.tmod a b, rsp := s.rsp + 8 + 8 } := by
    have hd4 : decodeList ((chunkOf Instruction.mod ++ t).drop 4) = some (MOp.idivRbx, 3) := rfl
    rw [step_at (show MState.pc { s with pc := pre.length + 2 + 2, rax := a, rbx := b, rdx := if a < 0 then -1 else 0, rsp := s.rsp + 8 + 8 } = pre.length + 4 from by show pre.length + 2 + 2 = _; omega) hd4]
    exact execMOp_idiv rfl hc
  have h5 : step (pre ++ (chunkOf Instruction.mod ++ t)) { s with pc := pre.length + 4 + 3, rax := Int.tdiv a b, rbx := b, rdx := Int.tmod a b, rsp := s.rsp + 8 + 8 }
      = StepRes.next { s with pc := pre.length + 7 + 3, rax := Int.tmod a b, rbx := b, rdx := Int.tmod a b, rsp := s.rsp + 8 + 8 } := by
    have hd5 : decodeList ((chunkOf Instruction.mod ++ t).drop 7) = some (MOp.movRaxRdx, 3) := rfl
    rw [step_at (show MState.pc { s with pc := pre.length + 4 + 3, rax := Int.tdiv a b, rbx := b, rdx := Int.tmod a b, rsp := s.rsp + 8 + 8 } = pre.length + 7 from by show pre.length + 4 + 3 = _; omega) hd5]
    rfl
  have h6 : step (pre ++ (chunkOf Instruction.mod ++ t)) { s with pc := pre.length + 7 + 3, rax := Int.tmod a b, rbx := b, rdx := Int.tmod a b, rsp := s.rsp + 8 + 8 }
      = StepRes.next { s with pc := pre.length + 10 + 1, rax := Int.tmod a b, rbx := b, rdx := Int.tmod a b, rsp := s.rsp + 8 + 8 - 8, mem := mupd s.mem (s.rsp + 8 + 8 - 8) (Int.tmod a b) } := by
    have hd6 : decodeList ((chunkOf Instruction.mod ++ t).drop 10) = some (MOp.pushRax, 1) := rfl
    rw [step_at (show MState.pc { s with pc := pre.length + 7 + 3, rax := Int.tmod a b, rbx := b, rdx := Int.tmod a b, rsp := s.rsp + 8 + 8 } = pre.length + 10 from by show pre.length + 7 + 3 = _; omega) hd6]
    rfl
  refine ⟨_, stepsTo_trans (stepsTo_trans (stepsTo_trans (stepsTo_one h1) (stepsTo_one h2)) (stepsTo_trans (stepsTo_one h3) (stepsTo_one h4))) (stepsTo_trans (stepsTo_one h5) (stepsTo_one h6)),
    by show pre.length + 10 + 1 = _; omega, ?_⟩
  have hinv1 : Inv { s with pc := pre.length + 1, rbx := b, rsp := s.rsp + 8 } (a :: stack) :=
    inv_pop hinv rfl rfl rfl
  have hinv2 : Inv { s with pc := pre.length + 2, rax := a, rbx := b, rsp := s.rsp + 8 + 8 } stack :=
    inv_pop hinv1 rfl rfl rfl
  have hinv5 : Inv { s with pc := pre.length + 7 + 3, rax := Int.tmod a b, rbx := b, rdx := Int.tmod a b, rsp := s.rsp + 8 + 8 } stack :=
    inv_keep hinv2 rfl rfl rfl
  exact inv_push hinv5 (Int.tmod a b) rfl rfl rfl

theorem sim_add {pre t : List Nat} {s : MState} {b a : Int} {stack : List Int}
    (hpc : s.pc = pre.length) (hinv : Inv s (b :: a :: stack)) :
    ∃ s2, StepsTo (pre ++ (chunkOf Instruction.add ++ t)) 4 s s2 ∧
      s2.pc = pre.length + 6 ∧ Inv s2 (wrap64 (a + b) :: stack) := by
  have hd : ∀ u : List Nat, decodeList ([0x48, 0x01, 0xD8] ++ u) = some (MOp.addRaxRbx, 3) :=
    fun u => rfl
  have hx : ∀ (q : Nat) (u : MState), execMOp MOp.addRaxRbx q u = StepRes.next
      { u with pc := q, rax := wrap64 (u.rax + u.rbx), flagA := wrap64 (u.rax + u.rbx), flagB := 0 } :=
    fun q u => rfl
  obtain ⟨s2, h1, h2, h3⟩ := sim_binop (f := fun x y => wrap64 (x + y)) hd hx rfl hpc hinv
  exact ⟨s2, h1, by omega, h3⟩

theorem sim_sub {pre t : List Nat} {s : MState} {b a : Int} {stack : List Int}
    (hpc : s.pc = pre.length) (hinv : Inv s (b :: a :: stack)) :
    ∃ s2, StepsTo (pre ++ (chunkOf Instruction.sub ++ t)) 4 s s2 ∧
      s2.pc = pre.length + 6 ∧ Inv s2 (wrap64 (a - b) :: stack) := by
  have hd : ∀ u : List Nat, decodeList ([0x48, 0x29, 0xD8] ++ u) = some (MOp.subRaxRbx, 3) :=
    fun u => rfl
  have hx : ∀ (q : Nat) (u : MState), execMOp MOp.subRaxRbx q u = StepRes.next
      { u with pc := q, rax := wrap64 (u.rax - u.rbx), flagA := wrap64 (u.rax - u.rbx), flagB := 0 } :=
    fun q u => rfl
  obtain ⟨s2, h1, h2, h3⟩ := sim_binop (f := fun x y => wrap64 (x - y)) hd hx rfl hpc hinv
  exact ⟨s2, h1, by omega, h3⟩

theorem sim_mul {pre t : List Nat} {s : MState} {b a : Int} {stack : List Int}
    (hpc : s.pc = pre.length) (hinv : Inv s (b :: a :: stack)) :
    ∃ s2, StepsTo (pre ++ (chunkOf Instruction.mul ++ t)) 4 s s2 ∧
      s2.pc = pre.length + 7 ∧ Inv s2 (wrap64 (a * b) :: stack) := by
  have hd : ∀ u : List Nat, decodeList ([0x48, 0x0F, 0xAF, 0xC3] ++ u) = some (MOp.imulRaxRbx, 4) :=
    fun u => rfl
  have hx : ∀ (q : Nat) (u : MState), execMOp MOp.imulRaxRbx q u = StepRes.next
      { u with pc := q, rax := wrap64 (u.rax * u.rbx), flagA := wrap64 (u.rax * u.rbx), flagB := 0 } :=
    fun q u => rfl
  obtain ⟨s2, h1, h2, h3⟩ := sim_binop (f := fun x y => wrap64 (x * y)) hd hx rfl hpc hinv
  exact ⟨s2, h1, by omega, h3⟩

theorem sim_prologue (t : List Nat) :
    StepsTo (proBytes ++ t) 3 initState
      { initState with pc := 11, rbp := -8, rsp := -8 - 1024, mem := mupd initState.mem (-8) 0 } ∧
    Inv { initState with pc := 11, rbp := -8, rsp := -8 - 1024, mem := mupd initState.mem (-8) 0 } [] := by
  constructor
  · have h1 : step (proBytes ++ t) initState
        = StepRes.next { initState with pc := 1, rsp := 0 - 8, mem := mupd initState.mem (0 - 8) 0 } := rfl
    have h2 : step (proBytes ++ t) { initState with pc := 1, rsp := 0 - 8, mem := mupd initState.mem (0 - 8) 0 }
        = StepRes.next { initState with pc := 4, rbp := 0 - 8, rsp := 0 - 8, mem := mupd initState.mem (0 - 8) 0 } := rfl
    have h3 : step (proBytes ++ t) { initState with pc := 4, rbp := 0 - 8, rsp := 0 - 8, mem := mupd initState.mem (0 - 8) 0 }
        = StepRes.next { initState with pc := 11, rbp := 0 - 8, rsp := 0 - 8 - 1024, mem := mupd initState.mem (0 - 8) 0 } := rfl
    have hs := stepsTo_trans (stepsTo_trans (stepsTo_one h1) (stepsTo_one h2)) (stepsTo_one h3)
    have e1 : ((0 : Int) - 8) = -8 := by decide
    rw [e1] at hs
    exact hs
  · refine ⟨rfl, by decide, ?_⟩
    intro i
    exact absurd i.isLt (by simp)

theorem sim_tail {pre : List Nat} {s : MState} {v : Int} {stack : List Int}
    (hpc : s.pc = pre.length) (hinv : Inv s (v :: stack)) :
    ∀ fuel, run (pre ++ ([0x58] ++ epiBytes)) (4 + fuel) s = ExecRes.ok v := by
  have hv := inv_top hinv
  have hrbp : s.rbp = -8 := hinv.1
  have h1 : step (pre ++ ([0x58] ++ epiBytes)) s
      = StepRes.next { s with pc := pre.length + 1, rax := v, rsp := s.rsp + 8 } := by
    have hd1 : decodeList (([0x58] ++ epiBytes).drop 0) = some (MOp.popRax, 1) := rfl
    rw [step_at (show s.pc = pre.length + 0 from by omega) hd1]
    show StepRes.next { s with pc := pre.length + 1, rax := s.mem s.rsp, rsp := s.rsp + 8 } = _
    rw [hv]
  have h2 : step (pre ++ ([0x58] ++ epiBytes)) { s with pc := pre.length + 1, rax := v, rsp := s.rsp + 8 }
      = StepRes.next { s with pc := pre.length + 1 + 3, rax := v, rsp := (-8 : Int) } := by
    have hd2 : decodeList (([0x58] ++ epiBytes).drop 1) = some (MOp.movRspRbp, 3) := rfl
    rw [step_at (show MState.pc { s with pc := pre.length + 1, rax := v, rsp := s.rsp + 8 } = pre.length + 1 from rfl) hd2]
    show StepRes.next { s with pc := pre.length + 1 + 3, rax := v, rsp := s.rbp } = _
    rw [hrbp]
  have h3 : step (pre ++ ([0x58] ++ epiBytes)) { s with pc := pre.length + 1 + 3, rax := v, rsp := (-8 : Int) }
      = StepRes.next { s with pc := pre.length + 4 + 1, rax := v, rbp := s.mem (-8), rsp := (-8 : Int) + 8 } := by
    have hd3 : decodeList (([0x58] ++ epiBytes).drop 4) = some (MOp.popRbp, 1) := rfl
    rw [step_at (show MState.pc { s with pc := pre.length + 1 + 3, rax := v, rsp := (-8 : Int) } = pre.length + 4 from by show pre.length + 1 + 3 = _; omega) hd3]
    rfl
  have h4 : step (pre ++ ([0x58] ++ epiBytes)) { s with pc := pre.length + 4 + 1, rax := v, rbp := s.mem (-8), rsp := (-8 : Int) + 8 }
      = StepRes.done v := by
    have hd4 : decodeList (([0x58] ++ epiBytes).drop 5) = some (MOp.retq, 1) := rfl
    rw [step_at (show MState.pc { s with pc := pre.length + 4 + 1, rax := v, rbp := s.mem (-8), rsp := (-8 : Int) + 8 } = pre.length + 5 from by show pre.length + 4 + 1 = _; omega) hd4]
    show (if ((-8 : Int) + 8) = 0 then StepRes.done v else StepRes.fault) = StepRes.done v
    rw [if_pos (by decide)]
  intro fuel
  have hs := stepsTo_trans (stepsTo_trans (stepsTo_one h1) (stepsTo_one h2)) (stepsTo_one h3)
  have e : 4 + fuel = 3 + (1 + fuel) := by omega
  rw [e, hs]
  have e2 : 1 + fuel = fuel + 1 := by omega
  rw [e2]
  show (match step (pre ++ ([0x58] ++ epiBytes)) { s with pc := pre.length + 4 + 1, rax := v, rbp := s.mem (-8), rsp := (-8 : Int) + 8 } with
    | StepRes.next s2 => run (pre ++ ([0x58] ++ epiBytes)) fuel s2
    | StepRes.done v => ExecRes.ok v
    | StepRes.fault => ExecRes.fault) = ExecRes.ok v
  rw [h4]

theorem bodyBytes_cons (i : Instruction) (rest : List Instruction) :
    bodyBytes (i :: rest) = chunkOf i ++ bodyBytes rest := by
  simp [bodyBytes]

theorem costOps_cons (i : Instruction) (rest : List Instruction) :
    costOps (i :: rest) = costOf i + costOps rest := by
  simp [costOps]

/-- Main simulation: running the emitted chunks of an arithmetic program
tracks the reference stack evaluation step for step. -/
theorem sim_ops : ∀ (ops : List Instruction) (stack stack2 : List Int)
    (code pre t : List Nat) (s : MState),
    evalOps ops stack = some stack2 → code = pre ++ (bodyBytes ops ++ t) →
    s.pc = pre.length → Inv s stack →
    ∃ s2, StepsTo code (costOps ops) s s2 ∧
      s2.pc = pre.length + (bodyBytes ops).length ∧ Inv s2 stack2 := by
  intro ops
  induction ops with
  | nil =>
      intro stack stack2 code pre t s he hcode hpc hinv
      have hs : stack2 = stack := by
        simp [evalOps] at he
        exact he.symm
      subst hs
      refine ⟨s, ?_, ?_, hinv⟩
      · intro fuel
        show run code (0 + fuel) s = run code fuel s
        rw [Nat.zero_add]
      · rw [hpc]
        simp [bodyBytes]
  | cons i rest ih =>
      intro stack stack2 code pre t s he hcode hpc hinv
      rw [show evalOps (i :: rest) stack = (evalStep i stack).bind (evalOps rest) from rfl] at he
      obtain ⟨st1, h1, h2⟩ := Option.bind_eq_some.mp he
      cases i with
      | load v =>
          have hst1 : st1 = wrap64 v :: stack := by
            simp [evalStep] at h1
            exact h1.symm
          subst hst1
          obtain ⟨s2, hst, hpc2, hinv2⟩ := sim_load (t := bodyBytes rest ++ t) hpc hinv
          have hcode2 : code = pre ++ (chunkOf (Instruction.load v) ++ (bodyBytes rest ++ t)) := by
            rw [hcode, bodyBytes_cons, List.append_assoc]
          rw [← hcode2] at hst
          have hcode3 : code = (pre ++ chunkOf (Instruction.load v)) ++ (bodyBytes rest ++ t) := by
            rw [hcode2, List.append_assoc]
          have hpc3 : s2.pc = (pre ++ chunkOf (Instruction.load v)).length := by
            rw [List.length_append, hpc2]
            simp [chunkOf, i64Le, natLe8]
          obtain ⟨s3, hst3, hpc4, hinv3⟩ :=
            ih (wrap64 v :: stack) stack2 code (pre ++ chunkOf (Instruction.load v)) t s2 h2 hcode3 hpc3 hinv2
          refine ⟨s3, ?_, ?_, hinv3⟩
          · rw [costOps_cons]
            exact stepsTo_trans hst hst3
          · rw [hpc4, List.length_append, bodyBytes_cons, List.length_append]
            have : (chunkOf (Instruction.load v)).length = 11 := by
              simp [chunkOf, i64Le, natLe8]
            omega
      | add =>
          cases stack with
          | nil => simp [evalStep] at h1
          | cons b s0 =>
            cases s0 with
            | nil => simp [evalStep] at h1
            | cons a stack1 =>
                have hst1 : st1 = wrap64 (a + b) :: stack1 := by
                  simp [evalStep] at h1
                  exact h1.symm
                subst hst1
                obtain ⟨s2, hst, hpc2, hinv2⟩ := sim_add (t := bodyBytes rest ++ t) hpc hinv
                have hcode2 : code = pre ++ (chunkOf Instruction.add ++ (bodyBytes rest ++ t)) := by
                  rw [hcode, bodyBytes_cons, List.append_assoc]
                rw [← hcode2] at hst
                have hcode3 : code = (pre ++ chunkOf Instruction.add) ++ (bodyBytes rest ++ t) := by
                  rw [hcode2, List.append_assoc]
                have hpc3 : s2.pc = (pre ++ chunkOf Instruction.add).length := by
                  rw [List.length_append, hpc2]
                  simp [chunkOf]
                obtain ⟨s3, hst3, hpc4, hinv3⟩ :=
                  ih (wrap64 (a + b) :: stack1) stack2 code (pre ++ chunkOf Instruction.add) t s2 h2 hcode3 hpc3 hinv2
                refine ⟨s3, ?_, ?_, hinv3⟩
                · rw [costOps_cons]
                  exact stepsTo_trans hst hst3
                · rw [hpc4, List.length_append, bodyBytes_cons, List.length_append]
                  have : (chunkOf Instruction.add).length = 6 := rfl
                  omega
      | sub =>
          cases stack with
          | nil => simp [evalStep] at h1
          | cons b s0 =>
            cases s0 with
            | nil => simp [evalStep] at h1
            | cons a stack1 =>
                have hst1 : st1 = wrap64 (a - b) :: stack1 := by
                  simp [evalStep] at h1
                  exact h1.symm
                subst hst1
                obtain ⟨s2, hst, hpc2, hinv2⟩ := sim_sub (t := bodyBytes rest ++ t) hpc hinv
                have hcode2 : code = pre ++ (chunkOf Instruction.sub ++ (bodyBytes rest ++ t)) := by
                  rw [hcode, bodyBytes_cons, List.append_assoc]
                rw [← hcode2] at hst
                have hcode3 : code = (pre ++ chunkOf Instruction.sub) ++ (bodyBytes rest ++ t) := by
                  rw [hcode2, List.append_assoc]
                have hpc3 : s2.pc = (pre ++ chunkOf Instruction.sub).length := by
                  rw [List.length_append, hpc2]
                  simp [chunkOf]
                obtain ⟨s3, hst3, hpc4, hinv3⟩ :=
                  ih (wrap64 (a - b) :: stack1) stack2 code (pre ++ chunkOf Instruction.sub) t s2 h2 hcode3 hpc3 hinv2
                refine ⟨s3, ?_, ?_, hinv3⟩
                · rw [costOps_cons]
                  exact stepsTo_trans hst hst3
                · rw [hpc4, List.length_append, bodyBytes_cons, List.length_append]
                  have : (chunkOf Instruction.sub).length = 6 := rfl
                  omega
      | mul =>
          cases stack with
          | nil => simp [evalStep] at h1
          | cons b s0 =>
            cases s0 with
            | nil => simp [evalStep] at h1
            | cons a stack1 =>
                have hst1 : st1 = wrap64 (a * b) :: stack1 := by
                  simp [evalStep] at h1
                  exact h1.symm
                subst hst1
                obtain ⟨s2, hst, hpc2, hinv2⟩ := sim_mul (t := bodyBytes rest ++ t) hpc hinv
                have hcode2 : code = pre ++ (chunkOf Instruction.mul ++ (bodyBytes rest ++ t)) := by
                  rw [hcode, bodyBytes_cons, List.append_assoc]
                rw [← hcode2] at hst
                have hcode3 : code = (pre ++ chunkOf Instruction.mul) ++ (bodyBytes rest ++ t) := by
                  rw [hcode2, List.append_assoc]
                have hpc3 : s2.pc = (pre ++ chunkOf Instruction.mul).length := by
                  rw [List.length_append, hpc2]
                  simp [chunkOf]
                obtain ⟨s3, hst3, hpc4, hinv3⟩ :=
                  ih (wrap64 (a * b) :: stack1) stack2 code (pre ++ chunkOf Instruction.mul) t s2 h2 hcode3 hpc3 hinv2
                refine ⟨s3, ?_, ?_, hinv3⟩
                · rw [costOps_cons]
                  exact stepsTo_trans hst hst3
                · rw [hpc4, List.length_append, bodyBytes_cons, List.length_append]
                  have : (chunkOf Instruction.mul).length = 7 := rfl
                  omega
      | div =>
          cases stack with
          | nil => simp [evalStep] at h1
          | cons b s0 =>
            cases s0 with
            | nil => simp [evalStep] at h1
            | cons a stack1 =>
                rw [show evalStep Instruction.div (b :: a :: stack1)
                  = (if b = 0 ∨ (a = -9223372036854775808 ∧ b = -1) then none
                     else some (Int.tdiv a b :: stack1)) from rfl] at h1
                by_cases hcnd : b = 0 ∨ (a = -9223372036854775808 ∧ b = -1)
                · rw [if_pos hcnd] at h1
                  exact absurd h1 (by simp)
                · rw [if_neg hcnd] at h1
                  have hst1 : st1 = Int.tdiv a b :: stack1 := by
                    simp at h1
                    exact h1.symm
                  subst hst1
                  obtain ⟨s2, hst, hpc2, hinv2⟩ := sim_div (t := bodyBytes rest ++ t) hpc hinv hcnd
                  have hcode2 : code = pre ++ (chunkOf Instruction.div ++ (bodyBytes rest ++ t)) := by
                    rw [hcode, bodyBytes_cons, List.append_assoc]
                  rw [← hcode2] at hst
                  have hcode3 : code = (pre ++ chunkOf Instruction.div) ++ (bodyBytes rest ++ t) := by
                    rw [hcode2, List.append_assoc]
                  have hpc3 : s2.pc = (pre ++ chunkOf Instruction.div).length := by
                    rw [List.length_append, hpc2]
                    simp [chunkOf]
                  obtain ⟨s3, hst3, hpc4, hinv3⟩ :=
                    ih (Int.tdiv a b :: stack1) stack2 code (pre ++ chunkOf Instruction.div) t s2 h2 hcode3 hpc3 hinv2
                  refine ⟨s3, ?_, ?_, hinv3⟩
                  · rw [costOps_cons]
                    exact stepsTo_trans hst hst3
                  · rw [hpc4, List.length_append, bodyBytes_cons, List.length_append]
                    have : (chunkOf Instruction.div).length = 8 := rfl
                    omega
      | mod =>
          cases stack with
          | nil => simp [evalStep] at h1
          | cons b s0 =>
            cases s0 with
            | nil => simp [evalStep] at h1
            | cons a stack1 =>
                rw [show evalStep Instruction.mod (b :: a :: stack1)
                  = (if b = 0 ∨ (a = -9223372036854775808 ∧ b = -1) then none
                     else some (Int.tmod a b :: stack1)) from rfl] at h1
                by_cases hcnd : b = 0 ∨ (a = -9223372036854775808 ∧ b = -1)
                · rw [if_pos hcnd] at h1
                  exact absurd h1 (by simp)
                · rw [if_neg hcnd] at h1
                  have hst1 : st1 = Int.tmod a b :: stack1 := by
                    simp at h1
                    exact h1.symm
                  subst hst1
                  obtain ⟨s2, hst, hpc2, hinv2⟩ := sim_mod (t := bodyBytes rest ++ t) hpc hinv hcnd
                  have hcode2 : code = pre ++ (chunkOf Instruction.mod ++ (bodyBytes rest ++ t)) := by
                    rw [hcode, bodyBytes_cons, List.append_assoc]
                  rw [← hcode2] at hst
                  have hcode3 : code = (pre ++ chunkOf Instruction.mod) ++ (bodyBytes rest ++ t) := by
                    rw [hcode2, List.append_assoc]
                  have hpc3 : s2.pc = (pre ++ chunkOf Instruction.mod).length := by
                    rw [List.length_append, hpc2]
                    simp [chunkOf]
                  obtain ⟨s3, hst3, hpc4, hinv3⟩ :=
                    ih (Int.tmod a b :: stack1) stack2 code (pre ++ chunkOf Instruction.mod) t s2 h2 hcode3 hpc3 hinv2
                  refine ⟨s3, ?_, ?_, hinv3⟩
                  · rw [costOps_cons]
                    exact stepsTo_trans hst hst3
                  · rw [hpc4, List.length_append, bodyBytes_cons, List.length_append]
                    have : (chunkOf Instruction.mod).length = 11 := rfl
                    omega
      | dup => simp [evalStep] at h1
      | pop => simp [evalStep] at h1
      | swap => simp [evalStep] at h1
      | neg => simp [evalStep] at h1
      | eq => simp [evalStep] at h1
      | ne => simp [evalStep] at h1
      | lt => simp [evalStep] at h1
      | gt => simp [evalStep] at h1
      | lte => simp [evalStep] at h1
      | gte => simp [evalStep] at h1
      | and => simp [evalStep] at h1
      | or => simp [evalStep] at h1
      | not => simp [evalStep] at h1
      | band => simp [evalStep] at h1
      | bor => simp [evalStep] at h1
      | bxor => simp [evalStep] at h1
      | bnot => simp [evalStep] at h1
      | shl => simp [evalStep] at h1
      | shr => simp [evalStep] at h1
      | write => simp [evalStep] at h1
      | writeChar => simp [evalStep] at h1
      | read => simp [evalStep] at h1
      | ret => simp [evalStep] at h1
      | halt => simp [evalStep] at h1
      | store id => simp [evalStep] at h1
      | loadVar id => simp [evalStep] at h1
      | jmp l => simp [evalStep] at h1
      | jmpIf l => simp [evalStep] at h1
      | jmpIfNot l => simp [evalStep] at h1
      | label id => simp [evalStep] at h1
      | call l => simp [evalStep] at h1

/-- End-to-end machine run of a compiled arithmetic program: prologue, body
simulation, `Ret`'s `pop rax`, epilogue. -/
theorem run_arith (ops : List Instruction) (v : Int) (st : List Int) (fuel : Nat)
    (he : evalOps ops [] = some (v :: st)) :
    run (proBytes ++ (bodyBytes ops ++ ([0x58] ++ epiBytes)))
      (costOps ops + 7 + fuel) initState = ExecRes.ok v := by
  obtain ⟨hpro, hinv0⟩ := sim_prologue (bodyBytes ops ++ ([0x58] ++ epiBytes))
  obtain ⟨s2, hst, hpc2, hinv2⟩ := sim_ops ops [] (v :: st)
    (proBytes ++ (bodyBytes ops ++ ([0x58] ++ epiBytes))) proBytes ([0x58] ++ epiBytes)
    { initState with pc := 11, rbp := -8, rsp := -8 - 1024, mem := mupd initState.mem (-8) 0 }
    he rfl rfl hinv0
  have hpc3 : s2.pc = (proBytes ++ bodyBytes ops).length := by
    rw [List.length_append]
    exact hpc2
  have htail := sim_tail (v := v) hpc3 hinv2
  have hassoc : (proBytes ++ bodyBytes ops) ++ ([0x58] ++ epiBytes)
      = proBytes ++ (bodyBytes ops ++ ([0x58] ++ epiBytes)) := by
    rw [List.append_assoc]
  rw [hassoc] at htail
  have e : costOps ops + 7 + fuel = 3 + (costOps ops + (4 + fuel)) := by omega
  have h3 := hpro (costOps ops + (4 + fuel))
  have h4 := hst (4 + fuel)
  have h5 := htail fuel
  rw [e, h3, h4, h5]

theorem evalOps_arith : ∀ (ops : List Instruction) (st st2 : List Int),
    evalOps ops st = some st2 → ops.all isArith = true := by
  intro ops
  induction ops with
  | nil => intro st st2 _; rfl
  | cons i rest ih =>
      intro st st2 he
      rw [show evalOps (i :: rest) st = (evalStep i st).bind (evalOps rest) from rfl] at he
      obtain ⟨st1, h1, h2⟩ := Option.bind_eq_some.mp he
      rw [List.all_cons, Bool.and_eq_true]
      refine ⟨?_, ih st1 st2 h2⟩
      cases i <;> first
        | rfl
        | simp [evalStep] at h1

theorem sim_div_fault {pre t : List Nat} {s : MState} {b a : Int} {stack : List Int}
    (hpc : s.pc = pre.length) (hinv : Inv s (b :: a :: stack))
    (hc : b = 0 ∨ (a = -9223372036854775808 ∧ b = -1)) :
    ∀ fuel, run (pre ++ (chunkOf Instruction.div ++ t)) (5 + fuel) s = ExecRes.fault := by
  have hvb := inv_top hinv
  have hva := inv_second hinv
  have h1 : step (pre ++ (chunkOf Instruction.div ++ t)) s
      = StepRes.next { s with pc := pre.length + 1, rbx := b, rsp := s.rsp + 8 } := by
    have hd1 : decodeList ((chunkOf Instruction.div ++ t).drop 0) = some (MOp.popRbx, 1) := rfl
    rw [step_at (show s.pc = pre.length + 0 from by omega) hd1]
    show StepRes.next { s with pc := pre.length + 1, rbx := s.mem s.rsp, rsp := s.rsp + 8 } = _
    rw [hvb]
  have h2 : step (pre ++ (chunkOf Instruction.div ++ t)) { s with pc := pre.length + 1, rbx := b, rsp := s.rsp + 8 }
      = StepRes.next { s with pc := pre.length + 2, rax := a, rbx := b, rsp := s.rsp + 8 + 8 } := by
    have hd2 : decodeList ((chunkOf Instruction.div ++ t).drop 1) = some (MOp.popRax, 1) := rfl
    rw [step_at (show MState.pc { s with pc := pre.length + 1, rbx := b, rsp := s.rsp + 8 } = pre.length + 1 from rfl) hd2]
    show StepRes.next { s with pc := pre.length + 2, rax := s.mem (s.rsp + 8), rbx := b, rsp := s.rsp + 8 + 8 } = _
    rw [hva]
  have h3 : step (pre ++ (chunkOf Instruction.div ++ t)) { s with pc := pre.length + 2, rax := a, rbx := b, rsp := s.rsp + 8 + 8 }
      = StepRes.next { s with pc := pre.length + 2 + 2, rax := a, rbx := b, rdx := if a < 0 then -1 else 0, rsp := s.rsp + 8 + 8 } := by
    have hd3 : decodeList ((chunkOf Instruction.div ++ t).drop 2) = some (MOp.cqo, 2) := rfl
    rw [step_at (show MState.pc { s with pc := pre.length + 2, rax := a, rbx := b, rsp := s.rsp + 8 + 8 } = pre.length + 2 from rfl) hd3]
    rfl
  have h4 : step (pre ++ (chunkOf Instruction.div ++ t)) { s with pc := pre.length + 2 + 2, rax := a, rbx := b, rdx := if a < 0 then -1 else 0, rsp := s.rsp + 8 + 8 }
      = StepRes.fault := by
    have hd4 : decodeList ((chunkOf Instruction.div ++ t).drop 4) = some (MOp.idivRbx, 3) := rfl
    rw [step_at (show MState.pc { s with pc := pre.length + 2 + 2, rax := a, rbx := b, rdx := if a < 0 then -1 else 0, rsp := s.rsp + 8 + 8 } = pre.length + 4 from by show pre.length + 2 + 2 = _; omega) hd4]
    exact execMOp_idiv_fault rfl hc
  intro fuel
  have hs := stepsTo_trans (stepsTo_trans (stepsTo_one h1) (stepsTo_one h2)) (stepsTo_one h3)
  have e : 5 + fuel = 3 + (fuel + 1 + 1) := by omega
  rw [e, hs]
  show (match step (pre ++ (chunkOf Instruction.div ++ t)) { s with pc := pre.length + 2 + 2, rax := a, rbx := b, rdx := if a < 0 then -1 else 0, rsp := s.rsp + 8 + 8 } with
    | StepRes.next s2 => run (pre ++ (chunkOf Instruction.div ++ t)) (fuel + 1) s2
    | StepRes.done v => ExecRes.ok v
    | StepRes.fault => ExecRes.fault) = ExecRes.fault
  rw [h4]

/-! ## The claims -/

set_option maxRecDepth 100000 in
/-- C1: the spec's branch examples demand that the forward conditional jump
land exactly at the byte offset its `Label` occupies in the emitted code.
The source's non-emitting pre-scan records every label at offset 11 (the
prologue length): in the branch-taken example the `jz` displacement at
offset 28 targets byte 11 although `Label(1)`'s position in the emitted code
is byte 43, so execution loops back to the first `Load` and never returns 42
(timeout at 300 steps); the branch-not-taken example happens to return 1041
because its wrongly-patched jump is never taken. -/
theorem c1_branch_target_collapses_to_prologue :
    emittedLen [Instruction.load 0, Instruction.jmpIfNot 1, Instruction.load 999] = some 43 ∧
    (compileOut progBranchTaken).bind (fun b => jumpTargetAt b 28) = some 11 ∧
    (compileOut progBranchTaken).map (fun b => run b 300 initState) = some ExecRes.timeout ∧
    (compileOut progBranchNotTaken).map (fun b => run b 40 initState) = some (ExecRes.ok 1041) ∧
    (11 : Nat) ≠ 43 :=
  ⟨rfl, rfl, rfl, rfl, by decide⟩

/-- C2: the counting loop with a `Gte`/`JmpIf` exit test does not compile to
a program returning 10: `Compiler::compile` maps `Gte` to `emit_cmp("ge")`,
which the encoder does not recognize, so compilation panics; moreover the
label table is built by a non-emitting pre-scan that assigns both labels of
the loop the same offset 11 instead of their emission positions. -/
theorem c2_loop_gte_panics_and_labels_collapse :
    compileErr progLoop = some ("unknown cmp op: ge") ∧
    prescanLabels progLoop 0 = some 11 ∧
    prescanLabels progLoop 1 = some 11 :=
  ⟨rfl, rfl, rfl⟩

/-- C3: `Lte`, `Gte` and `Not` are handed to the lowering routines under
names ("le", "ge", "not") the routines do not recognize; generation does not
fail with a reportable `CodegenError` (no such channel exists: `compile`
returns a bare byte vector) but panics with the messages below. -/
theorem c3_mismatched_lowerings_panic :
    compileErr [Instruction.load 1, Instruction.load 2, Instruction.lte, Instruction.ret]
      = some ("unknown cmp op: le") ∧
    compileErr [Instruction.load 1, Instruction.load 2, Instruction.gte, Instruction.ret]
      = some ("unknown cmp op: ge") ∧
    compileErr [Instruction.load 1, Instruction.not, Instruction.ret]
      = some ("unknown cmp op: not") :=
  ⟨rfl, rfl, rfl⟩

/-- C4: a jump to a label never defined in the program does not make
generation fail: `patch_jumps` silently skips patches whose label is absent,
and `compile` returns the buffer with the relocation site still holding the
four zero placeholder bytes (displacement 0). -/
theorem c4_undefined_label_returns_unpatched_buffer :
    compileOut [Instruction.jmp 5, Instruction.ret] =
      some [0x55, 0x48, 0x89, 0xE5, 0x48, 0x81, 0xEC, 0x00, 0x04, 0x00, 0x00,
            0xE9, 0x00, 0x00, 0x00, 0x00, 0x58, 0x48, 0x89, 0xEC, 0x5D, 0xC3] :=
  rfl

/-- C5: compiling P2 with the generator that previously compiled
P1 = `[Jmp(0), Label(0), Ret]` does not equal compiling P2 = `[Load(1), Ret]`
fresh: the stale relocation site (12, 0) and stale label table entry survive
`compile`'s partial reset and overwrite bytes 12..15 of P2's buffer. -/
theorem c5_generator_reuse_corrupts_output :
    reuseOut [Instruction.jmp 0, Instruction.label 0, Instruction.ret]
        [Instruction.load 1, Instruction.ret]
      ≠ compileOut [Instruction.load 1, Instruction.ret] ∧
    (reuseOut [Instruction.jmp 0, Instruction.label 0, Instruction.ret]
        [Instruction.load 1, Instruction.ret]).isSome = true ∧
    (compileOut [Instruction.load 1, Instruction.ret]).isSome = true :=
  ⟨by decide, rfl, rfl⟩

/-- C6 (counterexample): the claim's precondition admits the dividend
`-2^63` with divisor `-1` (the divisor is nonzero), but the compiled program
faults on the hardware divide overflow instead of returning the truncating
quotient; the reference evaluation is likewise undefined there. -/
theorem c6_counterexample_idiv_overflow :
    (compileOut [Instruction.load (-9223372036854775808), Instruction.load (-1),
        Instruction.div, Instruction.ret]).map (fun b => run b 30 initState)
      = some ExecRes.fault ∧
    evalOps [Instruction.load (-9223372036854775808), Instruction.load (-1),
        Instruction.div] [] = none :=
  ⟨rfl, rfl⟩

/-- C6 (amended): for every program of `Load`/`Add`/`Sub`/`Mul`/`Div`/`Mod`
followed by `Ret` whose reference stack evaluation (left-to-right, i64
wrapping arithmetic, second pop the left operand, `Div`/`Mod` truncating
signed and defined only for a nonzero divisor excluding the lone overflow
pair `a = -2^63, b = -1`) is defined, compiling and executing returns the
top of the final evaluation stack. -/
theorem c6_arith_programs_compute_stack_eval (ops : List Instruction) (v : Int)
    (st : List Int) (fuel : Nat) (he : evalOps ops [] = some (v :: st)) :
    ∃ bytes, compileOut (ops ++ [Instruction.ret]) = some bytes ∧
      run bytes (costOps ops + 7 + fuel) initState = ExecRes.ok v := by
  have hall : ops.all isArith = true := evalOps_arith ops [] (v :: st) he
  rw [compile_arith ops hall]
  exact ⟨_, rfl, run_arith ops v st fuel he⟩

/-- C6 (witness): `[Load(100), Load(200), Add, Ret]` returns 300. -/
theorem c6_arith_programs_compute_stack_eval_witness :
    ∃ bytes, compileOut ([Instruction.load 100, Instruction.load 200, Instruction.add]
        ++ [Instruction.ret]) = some bytes ∧
      run bytes (costOps [Instruction.load 100, Instruction.load 200, Instruction.add] + 7 + 0)
        initState = ExecRes.ok 300 :=
  c6_arith_programs_compute_stack_eval
    [Instruction.load 100, Instruction.load 200, Instruction.add] 300 [] 0 (by decide)

/-- C7: `And` and `Or` are lowered to the bitwise `and rax, rbx` /
`or rax, rbx` (bytes identical to `Band`/`Bor`), not to a boolean
combination: with a = 2 and b = 4 the claim demands 1 for `And`, but the
compiled program returns `2 AND 4 = 0`; `Or` returns `2 OR 4 = 6`, not 1. -/
theorem c7_and_or_are_bitwise_not_boolean :
    (compileOut [Instruction.load 2, Instruction.load 4, Instruction.and, Instruction.ret]).map
        (fun b => run b 20 initState) = some (ExecRes.ok 0) ∧
    (compileOut [Instruction.load 2, Instruction.load 4, Instruction.or, Instruction.ret]).map
        (fun b => run b 20 initState) = some (ExecRes.ok 6) ∧
    compileOut [Instruction.load 2, Instruction.load 4, Instruction.and, Instruction.ret]
      = compileOut [Instruction.load 2, Instruction.load 4, Instruction.band, Instruction.ret] ∧
    compileOut [Instruction.load 2, Instruction.load 4, Instruction.or, Instruction.ret]
      = compileOut [Instruction.load 2, Instruction.load 4, Instruction.bor, Instruction.ret] :=
  ⟨rfl, rfl, rfl, rfl⟩

/-- C8: when the OS refuses executable memory, `Invoker::execute` does not
surface a `MemoryError` to the caller: it panics (mmap failure and mprotect
failure each hit a `panic!`); only when both calls succeed is the executed
buffer's value returned. -/
theorem c8_memory_failure_panics_not_error (r : Int) :
    Invoker.execute false true r
      = ExecOutcome.panicked ("failed to allocate memory for Invoker.") ∧
    Invoker.execute true false r
      = ExecOutcome.panicked ("failed to make memory executable for Invoker.") ∧
    Invoker.execute true true r = ExecOutcome.ok r :=
  ⟨rfl, rfl, rfl⟩

/-- C9: an instruction after the first `Ret` can change the returned bytes:
a `Label` placed after `Ret` is still collected by the pre-scan and patches
an earlier jump's displacement, so dropping it changes the output (the
prologue/epilogue bracketing itself is not at issue). -/
theorem c9_label_after_ret_changes_output :
    compileOut [Instruction.jmp 5, Instruction.ret, Instruction.label 5]
      ≠ compileOut [Instruction.jmp 5, Instruction.ret] ∧
    (compileOut [Instruction.jmp 5, Instruction.ret, Instruction.label 5]).isSome = true :=
  ⟨by decide, rfl⟩

/-- C10: the lowering of `Div` is exactly pop, pop, `cqo`, `idiv rbx`, push
with no test or branch on the divisor, and executing
`[Load(a), Load(b), Div, Ret]` faults exactly when `b = 0` or
`(a, b) = (-2^63, -1)`, returning the truncating quotient otherwise. -/
theorem c10_div_unguarded_hardware_divide (a b : Int) (fuel : Nat)
    (ha1 : -9223372036854775808 ≤ a) (ha2 : a < 9223372036854775808)
    (hb1 : -9223372036854775808 ≤ b) (hb2 : b < 9223372036854775808) :
    chunkOf Instruction.div = [0x5B, 0x58, 0x48, 0x99, 0x48, 0xF7, 0xFB, 0x50] ∧
    ∃ bytes, compileOut [Instruction.load a, Instruction.load b, Instruction.div,
        Instruction.ret] = some bytes ∧
      run bytes (16 + fuel) initState =
        (if b = 0 ∨ (a = -9223372036854775808 ∧ b = -1) then ExecRes.fault
         else ExecRes.ok (Int.tdiv a b)) := by
  refine ⟨rfl, ?_⟩
  have hwa := wrap64_eq_self ha1 ha2
  have hwb := wrap64_eq_self hb1 hb2
  show ∃ bytes, compileOut ([Instruction.load a, Instruction.load b, Instruction.div]
      ++ [Instruction.ret]) = some bytes ∧ _
  rw [compile_arith [Instruction.load a, Instruction.load b, Instruction.div] rfl]
  refine ⟨_, rfl, ?_⟩
  by_cases hcnd : b = 0 ∨ (a = -9223372036854775808 ∧ b = -1)
  · rw [if_pos hcnd]
    obtain ⟨hpro, hinv0⟩ := sim_prologue
      (bodyBytes [Instruction.load a, Instruction.load b, Instruction.div] ++ ([0x58] ++ epiBytes))
    have hload : evalOps [Instruction.load a, Instruction.load b] []
        = some (wrap64 b :: (wrap64 a :: [])) := rfl
    have hcode2 : proBytes ++ (bodyBytes [Instruction.load a, Instruction.load b, Instruction.div]
          ++ ([0x58] ++ epiBytes))
        = proBytes ++ (bodyBytes [Instruction.load a, Instruction.load b]
          ++ (chunkOf Instruction.div ++ ([0x58] ++ epiBytes))) := by
      simp [bodyBytes, List.append_assoc]
    obtain ⟨s2, hst, hpc2, hinv2⟩ := sim_ops [Instruction.load a, Instruction.load b] []
      (wrap64 b :: (wrap64 a :: []))
      (proBytes ++ (bodyBytes [Instruction.load a, Instruction.load b, Instruction.div]
        ++ ([0x58] ++ epiBytes)))
      proBytes (chunkOf Instruction.div ++ ([0x58] ++ epiBytes))
      { initState with pc := 11, rbp := -8, rsp := -8 - 1024, mem := mupd initState.mem (-8) 0 }
      hload hcode2 rfl hinv0
    rw [hwa, hwb] at hinv2
    have hpc3 : s2.pc = (proBytes ++ bodyBytes [Instruction.load a, Instruction.load b]).length := by
      rw [List.length_append]
      exact hpc2
    have hfault := sim_div_fault (t := [0x58] ++ epiBytes) hpc3 hinv2 hcnd
    have hcode3 : (proBytes ++ bodyBytes [Instruction.load a, Instruction.load b])
          ++ (chunkOf Instruction.div ++ ([0x58] ++ epiBytes))
        = proBytes ++ (bodyBytes [Instruction.load a, Instruction.load b, Instruction.div]
          ++ ([0x58] ++ epiBytes)) := by
      simp [bodyBytes, List.append_assoc]
    rw [hcode3] at hfault
    have e : 16 + fuel = 3 + (costOps [Instruction.load a, Instruction.load b] + (5 + (4 + fuel))) := by
      show 16 + fuel = 3 + (4 + (5 + (4 + fuel)))
      omega
    rw [e, hpro (costOps [Instruction.load a, Instruction.load b] + (5 + (4 + fuel))),
      hst (5 + (4 + fuel)), hfault (4 + fuel)]
  · rw [if_neg hcnd]
    have he : evalOps [Instruction.load a, Instruction.load b, Instruction.div] []
        = some (Int.tdiv a b :: []) := by
      show ((if wrap64 b = 0 ∨ (wrap64 a = -9223372036854775808 ∧ wrap64 b = -1) then none
        else some (Int.tdiv (wrap64 a) (wrap64 b) :: ([] : List Int))).bind (evalOps []))
          = some (Int.tdiv a b :: [])
      rw [hwa, hwb, if_neg hcnd]
      rfl
    exact run_arith [Instruction.load a, Instruction.load b, Instruction.div]
      (Int.tdiv a b) [] fuel he

/-- C10 (witness): dividing 7 by 2 returns 3. -/
theorem c10_div_unguarded_hardware_divide_witness :
    chunkOf Instruction.div = [0x5B, 0x58, 0x48, 0x99, 0x48, 0xF7, 0xFB, 0x50] ∧
    ∃ bytes, compileOut [Instruction.load 7, Instruction.load 2, Instruction.div,
        Instruction.ret] = some bytes ∧
      run bytes (16 + 0) initState =
        (if (2 : Int) = 0 ∨ ((7 : Int) = -9223372036854775808 ∧ (2 : Int) = -1) then ExecRes.fault
         else ExecRes.ok (Int.tdiv 7 2)) :=
  c10_div_unguarded_hardware_divide 7 2 0 (by decide) (by decide) (by decide) (by decide)

end CJit
